import Mathlib

/-!
A shallow embedding of `src/gym.py`: the gym scheduling / registration engine.

Modelling conventions:
* Python `dict` (insertion ordered, unique keys) is an association list, with
  `dlookup` for `d[k]` reads (where `none` models an uncaught `KeyError`) and
  `dinsert` for `d[k] = v` writes (overwrite in place, else append).
* Python `int` is `Int` (instructor ids, room capacities); `datetime` time
  points are `Nat` (hour-aligned instants, hours since a Monday-00:00 epoch);
  Python `float` pay rates are `ℚ` (the example values are all dyadic, so the
  arithmetic of the claims is exact).
* Functions that can raise return `Option`; `none` is an uncaught exception.
* The schedule stores, per time and room, the tuple
  `(instructor, workout class, client list)` as the `Offering` structure.
  Python compares the instructor slot of that tuple by object identity; a
  scheduled instructor is always the unique registry object for its id
  (representation invariant 1 of the class docstring), so identity tests are
  embedded as equality of `get_id`.
-/

namespace GymModel

/-- Python dict lookup `d[k]` on an insertion-ordered association list.
`none` models a `KeyError`; `k in d` is `(dlookup d k).isSome`. -/
def dlookup {α β : Type} [DecidableEq α] : List (α × β) → α → Option β
  | [], _ => none
  | p :: rest, k => if p.1 = k then some p.2 else dlookup rest k

/-- Python dict assignment `d[k] = v`: overwrite the key in place when
present, otherwise append at the end (insertion order). -/
def dinsert {α β : Type} [DecidableEq α] : List (α × β) → α → β → List (α × β)
  | [], k, v => [(k, v)]
  | p :: rest, k, v => if p.1 = k then (k, v) :: rest else p :: dinsert rest k v

/-- Lexicographic strict order on character lists: Python's string `<`
(code-point comparison, shorter prefix first). -/
def charListLt : List Char → List Char → Bool
  | [], [] => false
  | [], _ :: _ => true
  | _ :: _, [] => false
  | c :: cs, d :: ds => if c < d then true else if d < c then false else
      charListLt cs ds

/-- Python `a <= b` on strings. -/
def pyStrLe (a b : String) : Bool := !(charListLt b.data a.data)

/-- Python `a <= b` on ints. -/
def pyIntLe (a b : Int) : Bool := a ≤ b

/-- Insert into a sorted list, before the first element that is not
strictly smaller (keeps the sort stable). -/
def pyInsert {α : Type} (le : α → α → Bool) (x : α) : List α → List α
  | [] => [x]
  | y :: ys => if le x y then x :: y :: ys else y :: pyInsert le x ys

/-- Python `list.sort()` / `sorted`: stable ascending sort. -/
def pysortBy {α : Type} (le : α → α → Bool) (l : List α) : List α :=
  l.foldr (pyInsert le) []

theorem mem_pyInsert {α : Type} (le : α → α → Bool) (x y : α) (l : List α) :
    y ∈ pyInsert le x l ↔ y = x ∨ y ∈ l := by
  induction l with
  | nil => simp [pyInsert]
  | cons a l ih =>
    unfold pyInsert
    by_cases h : le x a = true
    · rw [if_pos h]
      simp [List.mem_cons]
    · rw [if_neg h]
      simp only [List.mem_cons, ih]
      tauto

theorem mem_pysortBy {α : Type} (le : α → α → Bool) (l : List α) (y : α) :
    y ∈ pysortBy le l ↔ y ∈ l := by
  induction l with
  | nil => simp [pysortBy]
  | cons a l ih =>
    show y ∈ pyInsert le a (pysortBy le l) ↔ _
    rw [mem_pyInsert]
    simp [ih]

/-- Python `max` over the keys of a dict (`max(d)` iterates keys);
`none` models the `ValueError` on an empty sequence. -/
def maxKey {β : Type} (d : List (Int × β)) : Option Int :=
  (d.map Prod.fst).max?

/-- `WorkoutClass`: name and required certificates; `__eq__` compares the
name and the (order-sensitive) certificate lists. -/
structure WorkoutClass where
  name : String
  required_certificates : List String
  deriving DecidableEq, Repr

/-- `WorkoutClass.get_required_certificates` (the Python copy is aliasing
hygiene only). -/
def WorkoutClass.get_required_certificates (w : WorkoutClass) : List String :=
  w.required_certificates

/-- `Instructor`: id, display name and held certificates (Python private
fields `_id` / `_certificates`). -/
structure Instructor where
  id : Int
  name : String
  certificates : List String
  deriving DecidableEq, Repr

/-- `Instructor.get_id`. -/
def Instructor.get_id (i : Instructor) : Int := i.id

/-- `Instructor.get_certificates` (returns a copy in Python). -/
def Instructor.get_certificates (i : Instructor) : List String := i.certificates

/-- `Instructor.add_certificate`: append unless already held; returns the
Python return value together with the mutated instructor. -/
def Instructor.add_certificate (i : Instructor) (certificate : String) :
    Bool × Instructor :=
  if certificate ∈ i.certificates then (false, i)
  else (true, { i with certificates := i.certificates ++ [certificate] })

/-- One value of the nested `_schedule` dict: the Python tuple
`(instructor, workout class, registered clients)`. -/
structure Offering where
  instructor : Instructor
  workout : WorkoutClass
  clients : List String
  deriving DecidableEq, Repr

/-- The `Gym` aggregate (Python private fields without the underscore):
instructors keyed by id, workouts keyed by name, room capacities keyed by
room name, and the two-level schedule time ↦ room ↦ offering. -/
structure Gym where
  name : String
  instructors : List (Int × Instructor)
  workouts : List (String × WorkoutClass)
  room_capacities : List (String × Int)
  schedule : List (Nat × List (String × Offering))
  deriving DecidableEq, Repr

/-- `Gym.__init__`. -/
def Gym.init (gym_name : String) : Gym :=
  { name := gym_name, instructors := [], workouts := [],
    room_capacities := [], schedule := [] }

/-- `Gym.add_instructor`: keyed on `instructor.get_id()`; refuse duplicates. -/
def Gym.add_instructor (g : Gym) (instructor : Instructor) : Bool × Gym :=
  if (dlookup g.instructors instructor.get_id).isSome then (false, g)
  else (true, { g with
    instructors := dinsert g.instructors instructor.get_id instructor })

/-- `Gym.add_workout_class`: keyed on the workout name; refuse duplicates. -/
def Gym.add_workout_class (g : Gym) (workout_class : WorkoutClass) :
    Bool × Gym :=
  if (dlookup g.workouts workout_class.name).isSome then (false, g)
  else (true, { g with
    workouts := dinsert g.workouts workout_class.name workout_class })

/-- `Gym.add_room`: keyed on the room name; refuse duplicates. -/
def Gym.add_room (g : Gym) (room_name : String) (capacity : Int) : Bool × Gym :=
  if (dlookup g.room_capacities room_name).isSome then (false, g)
  else (true, { g with
    room_capacities := dinsert g.room_capacities room_name capacity })

/-- `Gym.schedule_workout_class`.  The two leading registry reads raise
`KeyError` (`none`) on unknown ids/names.  `instructor in tuple` is the
identity test embedded as `get_id` equality (see the file header). -/
def Gym.schedule_workout_class (g : Gym) (time_point : Nat) (room_name : String)
    (workout_name : String) (instr_id : Int) : Option (Bool × Gym) :=
  match dlookup g.instructors instr_id, dlookup g.workouts workout_name with
  | some instructor, some workout =>
    let qualification := instructor.get_certificates
    let needed_qualification := workout.get_required_certificates
    let instr_busy :=
      match dlookup g.schedule time_point with
      | some rooms => rooms.any fun p => p.2.instructor.get_id == instructor.get_id
      | none => false
    let room_available :=
      match dlookup g.schedule time_point with
      | some rooms => !(dlookup rooms room_name).isSome
      | none => true
    let instr_qualified := needed_qualification.all fun c => c ∈ qualification
    if !instr_busy && instr_qualified && room_available then
      match dlookup g.schedule time_point with
      | none =>
        -- `self._schedule[time_point] = {}` followed by
        -- `self._schedule[time_point][room_name] = (...)`;
        -- `room_name not in {}` always holds, so this inserts and returns True.
        let sched1 := dinsert g.schedule time_point []
        let sched2 := dinsert sched1 time_point
          (dinsert [] room_name ⟨instructor, workout, []⟩)
        some (true, { g with schedule := sched2 })
      | some rooms =>
        if (dlookup rooms room_name).isSome then some (false, g)
        else
          let sched2 := dinsert g.schedule time_point
            (dinsert rooms room_name ⟨instructor, workout, []⟩)
          some (true, { g with schedule := sched2 })
    else some (false, g)
  | _, _ => none

/-- `Gym.room_space`: available spots of a room at a time; the three dict
reads can each raise `KeyError`.  `tuple[-1]` is the client list. -/
def Gym.room_space (g : Gym) (time : Nat) (room_name : String) : Option Int := do
  let rooms ← dlookup g.schedule time
  let off ← dlookup rooms room_name
  let num_registered : Int := off.clients.length
  let cap ← dlookup g.room_capacities room_name
  pure (cap - num_registered)

/-- `Gym.client_free`: True iff the client is in no roster at `time`
(the Python name is inverted); raises on an absent time slot. -/
def Gym.client_free (g : Gym) (time : Nat) (client : String) : Option Bool := do
  let rooms ← dlookup g.schedule time
  let registered_list := rooms.foldl (fun acc p => acc ++ p.2.clients) []
  pure (decide (¬client ∈ registered_list))

/-- The `for room in self._schedule[time_point]` loop of `Gym.register`.
Per room: if the offering is for `workout` (tuple membership = `__eq__` of
`WorkoutClass`) and the room has space and the client is free, record the
room keyed by its free space in `workout_rooms`; on ANY other room the
Python `else` returns `False` immediately (`Sum.inl ()` here).  A
`room_space` `KeyError` propagates (`none`). -/
def Gym.regLoop (g : Gym) (time_point : Nat) (workout : WorkoutClass)
    (cf : Bool) :
    List (String × Offering) → List (Int × String) →
      Option (Sum Unit (List (Int × String)))
  | [], workout_rooms => some (Sum.inr workout_rooms)
  | (room, off) :: rest, workout_rooms =>
    if off.workout = workout then
      match g.room_space time_point room with
      | none => none
      | some space =>
        if ¬space ≤ 0 ∧ cf = true then
          g.regLoop time_point workout cf rest (dinsert workout_rooms space room)
        else some (Sum.inl ())
    else some (Sum.inl ())

/-- `Gym.register`.  Each dict read can raise; after the loop the code takes
`workout_rooms[max(workout_rooms)]` (max over the free-space keys!) and
appends the client to that room's roster. -/
def Gym.register (g : Gym) (time_point : Nat) (client : String)
    (workout_name : String) : Option (Bool × Gym) :=
  match dlookup g.workouts workout_name with
  | none => none
  | some workout =>
    match g.client_free time_point client with
    | none => none
    | some cf =>
      match dlookup g.schedule time_point with
      | none => none
      | some rooms =>
        match g.regLoop time_point workout cf rooms [] with
        | none => none
        | some (Sum.inl _) => some (false, g)
        | some (Sum.inr workout_rooms) =>
          match maxKey workout_rooms with
          | none => none
          | some m =>
            match dlookup workout_rooms m with
            | none => none
            | some chosen_room =>
              match dlookup rooms chosen_room with
              | none => none
              | some off =>
                let sched2 := dinsert g.schedule time_point
                  (dinsert rooms chosen_room
                    { off with clients := off.clients ++ [client] })
                some (true, { g with schedule := sched2 })

/-- Module constant `BONUS_RATE = 1.50` (extra hourly pay per certificate). -/
def BONUS_RATE : ℚ := 3 / 2

/-- `hour_dict[k] += 1`: read then overwrite; the `none` branch is the
`KeyError` that cannot fire because `hour_dict` holds every registry id. -/
def dbump (hd : List (Int × Nat)) (k : Int) : List (Int × Nat) :=
  match dlookup hd k with
  | some v => dinsert hd k (v + 1)
  | none => hd

/-- The inner `for instr in instr_list` loop of `instructor_hours` for one
offering: the (at most one) registry instructor identical to the offering's
instructor gets one hour (identity embedded as `get_id` equality). -/
def ihInstrStep (g : Gym) (off : Offering) (hd : List (Int × Nat)) :
    List (Int × Nat) :=
  g.instructors.foldl
    (fun hd ip =>
      if off.instructor.get_id = ip.2.get_id then dbump hd ip.2.get_id else hd)
    hd

/-- The `for room in self._schedule[date]` loop of `instructor_hours`. -/
def ihRoomsStep (g : Gym) (rooms : List (String × Offering))
    (hd : List (Int × Nat)) : List (Int × Nat) :=
  rooms.foldl (fun hd ro => ihInstrStep g ro.2 hd) hd

/-- `Gym.instructor_hours`: initialise every registry id to 0, then scan
schedule slots with `time1 <= date <= time2` crediting one hour per
offering taught. -/
def Gym.instructor_hours (g : Gym) (time1 time2 : Nat) : List (Int × Nat) :=
  let hour_dict := g.instructors.map fun p => (p.1, 0)
  g.schedule.foldl
    (fun hd dr =>
      if time1 ≤ dr.1 ∧ dr.1 ≤ time2 then ihRoomsStep g dr.2 hd else hd)
    hour_dict

/-- The inner `for instr in instr_dict` loop of `payroll` for one offering:
`instr_dict` is keyed by the registry instructor objects, and the entry
whose key is identical to the offering's instructor is bumped (identity
embedded as `get_id` equality). -/
def prStep (off : Offering) (d : List (Instructor × Nat)) :
    List (Instructor × Nat) :=
  d.map fun ic =>
    if off.instructor.get_id = ic.1.get_id then (ic.1, ic.2 + 1) else ic

/-- The per-slot room loop of `payroll`. -/
def prRoomsStep (rooms : List (String × Offering))
    (d : List (Instructor × Nat)) : List (Instructor × Nat) :=
  rooms.foldl (fun d ro => prStep ro.2 d) d

/-- `Gym.payroll`: the hour scan keyed by the registry instructor objects,
then per instructor the tuple (id, name, hours, hours * (base + bonus)),
then the id-sorted rearrangement: `id_list.sort()` followed by replacing
each id by the first tuple carrying it (after one replacement the slot
holds a tuple and matches no further id, so the first match wins).  The
`getD` default models the impossible no-match case. -/
def Gym.payroll (g : Gym) (time1 time2 : Nat) (base_rate : ℚ) :
    List (Int × String × Nat × ℚ) :=
  let instr_dict : List (Instructor × Nat) := g.instructors.map fun p => (p.2, 0)
  let instr_dict := g.schedule.foldl
    (fun d tr =>
      if time1 ≤ tr.1 ∧ tr.1 ≤ time2 then prRoomsStep tr.2 d else d)
    instr_dict
  let lst1 : List (Int × String × Nat × ℚ) := instr_dict.map fun ic =>
    let counter : ℚ := ic.1.get_certificates.length
    let bonus := BONUS_RATE * counter
    let total := (ic.2 : ℚ) * (base_rate + bonus)
    (ic.1.get_id, ic.1.name, ic.2, total)
  let id_list := pysortBy pyIntLe (lst1.map Prod.fst)
  id_list.map fun iid =>
    (lst1.find? fun item => item.1 = iid).getD (iid, "", 0, 0)

/-- `Gym._is_instructor_name_unique`: at most one registry instructor bears
the name. -/
def Gym.is_instructor_name_unique (g : Gym) (instructor : Instructor) : Bool :=
  (g.instructors.map fun p => p.2.name).count instructor.name ≤ 1

/-- `datetime.strftime("%A, %Y-%m-%d")`, abstracted: an injective rendering
of the day number of an hour-aligned instant (hours since a Monday-00:00
epoch).  Only injectivity per day and the fact that lexicographic string
order differs from chronological order matter to the claims. -/
def dateStr (t : Nat) : String := "day " ++ toString (t / 24)

/-- `datetime.strftime("%H:%M")`, abstracted likewise: the hour of day. -/
def timeStr (t : Nat) : String := toString (t % 24) ++ ":00"

/-- One view record of a listing: the dict with keys Date, Time, Class,
Room, Registered, Available, Instructor. -/
structure OfferingDict where
  Date : String
  Time : String
  Class : String
  Room : String
  Registered : Nat
  Available : Int
  Instructor : String
  deriving DecidableEq, Repr

/-- Modelled from the spec: `create_offering_dict` of the `gym_utilities`
module (absent from `src/`) packs the seven listing fields into one record
(spec §6: "Date, Time, Class, Room, Registered, Available, Instructor"). -/
def create_offering_dict (date time class_ room : String) (registered : Nat)
    (available : Int) (instructor_name : String) : OfferingDict :=
  ⟨date, time, class_, room, registered, available, instructor_name⟩

/-- The `for room in room_list` loop of `Gym.offerings_at`, carrying the
shared disambiguation counter `i`.  Reading `info[room]` cannot fail (rooms
come from the keys); `self._room_capacities[room]` can raise `KeyError`.
Negative availability is floored at 0 by the source. -/
def Gym.offeringsLoop (g : Gym) (info : List (String × Offering))
    (date time : String) : List String → Nat → Option (List OfferingDict)
  | [], _ => some []
  | room :: rest, i => do
    let off ← dlookup info room
    let class_ := off.workout.name
    let instructor_ := off.instructor
    let registered := off.clients.length
    let cap ← dlookup g.room_capacities room
    let available0 : Int := cap - registered
    let available := if available0 < 0 then 0 else available0
    let next :=
      if !(g.is_instructor_name_unique instructor_) then
        (i + 1, instructor_.name ++ " (" ++ toString (i + 1) ++ ")")
      else (i, instructor_.name)
    let rest2 ← g.offeringsLoop info date time rest next.1
    some (create_offering_dict date time class_ room registered available
      next.2 :: rest2)

/-- `Gym.offerings_at`: an UNGUARDED `self._schedule[time_point]` read, then
the room-name-sorted rendering loop with the shared counter starting at 0. -/
def Gym.offerings_at (g : Gym) (time_point : Nat) :
    Option (List OfferingDict) := do
  let info ← dlookup g.schedule time_point
  let room_list := pysortBy pyStrLe (info.map Prod.fst)
  let date := dateStr time_point
  let time := timeStr time_point
  g.offeringsLoop info date time room_list 0

/-- Modelled from the spec: `in_week` of the `gym_utilities` module (absent
from `src/`).  Spec §4.5: a slot qualifies iff it falls in "the 7-day
window, Monday 00:00 through Sunday 23:59" containing the anchor; with hour
0 a Monday 00:00 this is equality of the 168-hour blocks. -/
def in_week (time anchor : Nat) : Bool := time / 168 = anchor / 168

/-- An element of `time_list2` in `Gym.to_schedule_list`: first a datetime,
later overwritten by view records. -/
abbrev TLEntry := Sum Nat OfferingDict

/-- Python list indexing `lst[i]` with one round of negative-index
wrap-around; `none` is an `IndexError`. -/
def pyGet {α : Type} (lst : List α) (i : Int) : Option α :=
  let j := if i < 0 then i + lst.length else i
  if j < 0 then none else lst.get? j.toNat

/-- Python list item assignment `lst[i] = v`, same index convention. -/
def pySet {α : Type} (lst : List α) (i : Int) (v : α) : Option (List α) :=
  let j := if i < 0 then i + lst.length else i
  if j < 0 ∨ (lst.length : Int) ≤ j then none else some (lst.set j.toNat v)

/-- The module-level `swap` helper: exchange the values at two indexes
(the Python version mutates in place and returns `None`; we return the
mutated list). -/
def swap {α : Type} (lst : List α) (ind1 ind2 : Int) : Option (List α) := do
  let value1 ← pyGet lst ind1
  let value2 ← pyGet lst ind2
  let l1 ← pySet lst ind1 value2
  pySet l1 ind2 value1

/-- The `while time_list1 != []` selection loop of `to_schedule_list`:
repeatedly move `min(time_list1)` over.  `list.remove` drops the first
occurrence, so the fuel `l.length` is exact. -/
def sortTimesLoop : Nat → List Nat → List Nat
  | 0, _ => []
  | fuel + 1, l =>
    match l.min? with
    | none => []
    | some m => m :: sortTimesLoop fuel (l.erase m)

/-- `time_list2` after the selection loop: the slots in ascending order. -/
def sort_times (l : List Nat) : List Nat := sortTimesLoop l.length l

/-- Python `x in lst` on `time_list2`: an equality scan (a record never
equals a datetime, records compare structurally). -/
def tlMem (x : TLEntry) : List TLEntry → Bool
  | [] => false
  | y :: rest => x = y || tlMem x rest

/-- The `for dict1 in lst1` loop at index `i` of `to_schedule_list`.  A
matching record not yet present overwrites slot `i`; a matching record
already present re-writes slot `i` and then compares
`time_list2[i-1]['Room'][0]` with `time_list2[i]['Room'][i][0]` (indexing
the room NAME at position `i`!), swapping on `>`.  Subscripting a datetime
(`TypeError`) or out-of-range string index (`IndexError`) is `none`. -/
def tlInner (date time : String) (i : Nat) :
    List OfferingDict → List TLEntry → Option (List TLEntry)
  | [], tl2 => some tl2
  | dict1 :: rest, tl2 =>
    if date = dict1.Date ∧ time = dict1.Time ∧
        tlMem (Sum.inr dict1) tl2 = false then
      tlInner date time i rest (tl2.set i (Sum.inr dict1))
    else if date = dict1.Date ∧ time = dict1.Time ∧
        tlMem (Sum.inr dict1) tl2 = true then do
      let tl2b := tl2.set i (Sum.inr dict1)
      let prev ← pyGet tl2b ((i : Int) - 1)
      let prevd ← match prev with | Sum.inr d => some d | Sum.inl _ => none
      let cur ← pyGet tl2b (i : Int)
      let curd ← match cur with | Sum.inr d => some d | Sum.inl _ => none
      let c1 ← prevd.Room.data.get? 0
      let c2 ← curd.Room.data.get? i
      -- Python then takes `[0]` of the one-character string: the same char.
      if c2 < c1 then do
        let tl2c ← swap tl2b ((i : Int) - 1) (i : Int)
        tlInner date time i rest tl2c
      else tlInner date time i rest tl2b
    else tlInner date time i rest tl2

/-- The `while i < len(time_list2)` loop.  `strftime` on an entry that is no
longer a datetime would be an `AttributeError` (`none`); replacements keep
the length, so the fuel (initially the length) is exact and the
fuel-exhaustion guard can never answer for a live index. -/
def tlOuter (lst1 : List OfferingDict) :
    Nat → Nat → List TLEntry → Option (List TLEntry)
  | 0, i, tl2 => if i < tl2.length then none else some tl2
  | fuel + 1, i, tl2 =>
    if i < tl2.length then do
      let e ← pyGet tl2 (i : Int)
      let t ← match e with | Sum.inl t => some t | Sum.inr _ => none
      let tl2b ← tlInner (dateStr t) (timeStr t) i lst1 tl2
      tlOuter lst1 fuel (i + 1) tl2b
    else some tl2

/-- The collection pass of `to_schedule_list` without a week anchor:
`time_list1` gets every slot, `lst1` the concatenated `offerings_at`. -/
def Gym.collectAll (g : Gym) :
    List (Nat × List (String × Offering)) →
      Option (List Nat × List OfferingDict)
  | [] => some ([], [])
  | (time, _) :: rest => do
    let offs ← g.offerings_at time
    let tail ← g.collectAll rest
    some (time :: tail.1, offs ++ tail.2)

/-- The collection pass with a week anchor: only slots with `in_week`. -/
def Gym.collectWeek (g : Gym) (week : Nat) :
    List (Nat × List (String × Offering)) →
      Option (List Nat × List OfferingDict)
  | [] => some ([], [])
  | (time, _) :: rest =>
    if in_week time week then do
      let offs ← g.offerings_at time
      let tail ← g.collectWeek week rest
      some (time :: tail.1, offs ++ tail.2)
    else g.collectWeek week rest

/-- `Gym.to_schedule_list`: collect, sort the slots, then run the
re-ordering loops.  The result list holds view records (and would keep raw
datetimes only for slots no record matched, which the pruning invariant
rules out). -/
def Gym.to_schedule_list (g : Gym) (week : Option Nat) :
    Option (List TLEntry) := do
  let collected ← match week with
    | none => g.collectAll g.schedule
    | some w => g.collectWeek w g.schedule
  let time_list2 : List TLEntry := (sort_times collected.1).map Sum.inl
  tlOuter collected.2 time_list2.length 0 time_list2

/-- One engine call, for sequences of operations (claims C5/C6).  The
constructors carry exactly what the Python call sites pass. -/
inductive Op where
  | addInstructor (instructor : Instructor)
  | addCertificate (instr_id : Int) (certificate : String)
  | addWorkoutClass (workout : WorkoutClass)
  | addRoom (room_name : String) (capacity : Int)
  | scheduleClass (time_point : Nat) (room_name workout_name : String)
      (instr_id : Int)
  | registerClient (time_point : Nat) (client workout_name : String)

/-- Run one call against the gym.  A raising call (`none`) leaves the state
unchanged — in the source every uncaught `KeyError` fires before any
mutation.  `addCertificate` mutates the registry object in place (Python
aliasing). -/
def applyOp (g : Gym) : Op → Gym
  | .addInstructor ins => (g.add_instructor ins).2
  | .addCertificate iid c =>
    match dlookup g.instructors iid with
    | some ins =>
      { g with instructors := dinsert g.instructors iid (ins.add_certificate c).2 }
    | none => g
  | .addWorkoutClass w => (g.add_workout_class w).2
  | .addRoom n c => (g.add_room n c).2
  | .scheduleClass t r w i =>
    match g.schedule_workout_class t r w i with
    | some p => p.2
    | none => g
  | .registerClient t c w =>
    match g.register t c w with
    | some p => p.2
    | none => g

/-- A call sequence from a state. -/
def runOps (g : Gym) (ops : List Op) : Gym := ops.foldl applyOp g

/-! ### Association-list (Python dict) lemmas -/

theorem dlookup_dinsert {α β : Type} [DecidableEq α] (d : List (α × β))
    (k k' : α) (v : β) :
    dlookup (dinsert d k v) k' = if k' = k then some v else dlookup d k' := by
  induction d with
  | nil =>
    rcases eq_or_ne k' k with rfl | h
    · simp [dinsert, dlookup]
    · simp [dinsert, dlookup, h, Ne.symm h]
  | cons p rest ih =>
    rcases eq_or_ne k' k with rfl | h
    · by_cases hp : p.1 = k'
      · simp [dinsert, dlookup, hp]
      · simp [dinsert, dlookup, hp, ih]
    · by_cases hp : p.1 = k
      · have hpk : p.1 ≠ k' := fun h2 => h (h2.symm.trans hp)
        simp [dinsert, dlookup, hp, h, Ne.symm h, hpk]
      · by_cases hpk : p.1 = k' <;>
          simp [dinsert, dlookup, hp, hpk, ih, h]

theorem dlookup_dinsert_self {α β : Type} [DecidableEq α] (d : List (α × β))
    (k : α) (v : β) : dlookup (dinsert d k v) k = some v := by
  simp [dlookup_dinsert]

theorem dlookup_dinsert_ne {α β : Type} [DecidableEq α] (d : List (α × β))
    {k k' : α} (v : β) (h : k' ≠ k) :
    dlookup (dinsert d k v) k' = dlookup d k' := by
  simp [dlookup_dinsert, h]

theorem mem_of_dlookup {α β : Type} [DecidableEq α] {d : List (α × β)}
    {k : α} {v : β} (h : dlookup d k = some v) : (k, v) ∈ d := by
  induction d with
  | nil => simp [dlookup] at h
  | cons p rest ih =>
    by_cases hp : p.1 = k
    · simp [dlookup, hp] at h
      subst hp
      rw [← h]
      exact List.mem_cons_self p rest
    · simp [dlookup, hp] at h
      exact List.mem_cons_of_mem p (ih h)

theorem dlookup_eq_none_iff {α β : Type} [DecidableEq α] {d : List (α × β)}
    {k : α} : dlookup d k = none ↔ k ∉ d.map Prod.fst := by
  induction d with
  | nil => simp [dlookup]
  | cons p rest ih =>
    by_cases hp : p.1 = k
    · simp [dlookup, hp]
    · simp [dlookup, hp, ih, Ne.symm hp]

theorem dlookup_isSome_iff {α β : Type} [DecidableEq α] {d : List (α × β)}
    {k : α} : (dlookup d k).isSome ↔ k ∈ d.map Prod.fst := by
  rw [Option.isSome_iff_ne_none, Ne, dlookup_eq_none_iff, not_not]

theorem keys_dinsert_some {α β : Type} [DecidableEq α] {d : List (α × β)}
    {k : α} (v : β) (h : (dlookup d k).isSome) :
    (dinsert d k v).map Prod.fst = d.map Prod.fst := by
  induction d with
  | nil => simp [dlookup] at h
  | cons p rest ih =>
    by_cases hp : p.1 = k
    · simp [dinsert, hp]
    · simp [dlookup, hp] at h
      simp [dinsert, hp, ih h]

theorem keys_dinsert_none {α β : Type} [DecidableEq α] {d : List (α × β)}
    {k : α} (v : β) (h : dlookup d k = none) :
    (dinsert d k v).map Prod.fst = d.map Prod.fst ++ [k] := by
  induction d with
  | nil => simp [dinsert]
  | cons p rest ih =>
    by_cases hp : p.1 = k
    · simp [dlookup, hp] at h
    · simp [dlookup, hp] at h
      simp [dinsert, hp, ih h]

theorem mem_dinsert {α β : Type} [DecidableEq α] {d : List (α × β)}
    {k : α} {v : β} {x : α × β} (h : x ∈ dinsert d k v) :
    x ∈ d ∨ x = (k, v) := by
  induction d with
  | nil =>
    simp [dinsert] at h
    right; simp [h]
  | cons p rest ih =>
    by_cases hp : p.1 = k
    · simp [dinsert, hp] at h
      rcases h with h | h
      · right; simp [h]
      · left; exact List.mem_cons_of_mem p h
    · simp [dinsert, hp] at h
      rcases h with h | h
      · left; simp [h]
      · rcases ih h with h2 | h2
        · left; exact List.mem_cons_of_mem p h2
        · right; exact h2

/-! ### Concrete gym states used by the claim-level evaluations -/

/-- A certificate-free workout, for concrete states. -/
def wYoga : WorkoutClass := ⟨"Yoga", []⟩

/-- A second certificate-free workout. -/
def wDance : WorkoutClass := ⟨"Dance", []⟩

/-- Claim C1's scenario: two rooms host the same workout at hour 12,
capacities 20 and 10, rosters of sizes 5 and 8 (5 free vs 2 free). -/
def gymC1 : Gym :=
  { name := "G",
    instructors := [(1, ⟨1, "I", []⟩), (2, ⟨2, "J", []⟩)],
    workouts := [("Yoga", wYoga)],
    room_capacities := [("A", 20), ("B", 10)],
    schedule := [(12,
      [("A", ⟨⟨1, "I", []⟩, wYoga, ["a1", "a2", "a3", "a4", "a5"]⟩),
       ("B", ⟨⟨2, "J", []⟩, wYoga,
         ["b1", "b2", "b3", "b4", "b5", "b6", "b7", "b8"]⟩)])] }

/-- Claim C2's / C3's scenario: at hour 12 room A hosts Yoga (empty roster,
plenty of space) and room B hosts Dance. -/
def gymC2 : Gym :=
  { name := "G",
    instructors := [(1, ⟨1, "I", []⟩), (2, ⟨2, "J", []⟩)],
    workouts := [("Yoga", wYoga), ("Dance", wDance)],
    room_capacities := [("A", 20), ("B", 10)],
    schedule := [(12,
      [("A", ⟨⟨1, "I", []⟩, wYoga, []⟩),
       ("B", ⟨⟨2, "J", []⟩, wDance, []⟩)])] }

/-- Claim C9's scenario: two instructors named Bob (rooms A, B) and two
named Diane (rooms C, D), all four teaching at hour 12. -/
def gymC9 : Gym :=
  { name := "G",
    instructors := [(1, ⟨1, "Bob", []⟩), (2, ⟨2, "Bob", []⟩),
                    (3, ⟨3, "Diane", []⟩), (4, ⟨4, "Diane", []⟩)],
    workouts := [("Yoga", wYoga)],
    room_capacities := [("A", 5), ("B", 5), ("C", 5), ("D", 5)],
    schedule := [(12,
      [("A", ⟨⟨1, "Bob", []⟩, wYoga, []⟩),
       ("B", ⟨⟨2, "Bob", []⟩, wYoga, []⟩),
       ("C", ⟨⟨3, "Diane", []⟩, wYoga, []⟩),
       ("D", ⟨⟨4, "Diane", []⟩, wYoga, []⟩)])] }

/-- The class docstring's scheduling example, just before the schedule
call: Jacqueline (certified "Cardio 1"), the lower gym, Boot Camp. -/
def gymW : Gym :=
  { name := "Athletic Centre",
    instructors := [(1, ⟨1, "Jacqueline Smith", ["Cardio 1"]⟩)],
    workouts := [("Boot Camp", ⟨"Boot Camp", ["Cardio 1"]⟩)],
    room_capacities := [("lower gym", 50)],
    schedule := [] }

/-! ### Claim C1 -/

/-- C1 (code bug): in the spec's own scenario — rooms A (5/20) and B (8/10)
both hosting the workout — a successful `register` appends to room A, the
candidate with the MOST free space (the code keys candidates by free space
and takes `max`), not to the fullest non-full room B that the claim and the
method's docstring require. -/
theorem c1_register_fills_emptiest_room_cex :
    gymC1.room_space 12 "A" = some 15 ∧
    gymC1.room_space 12 "B" = some 2 ∧
    (gymC1.register 12 "newbie" "Yoga").map Prod.fst = some true ∧
    ((gymC1.register 12 "newbie" "Yoga").bind fun p =>
      (dlookup p.2.schedule 12).bind fun rooms =>
        (dlookup rooms "A").map fun o => o.clients.length) = some 6 ∧
    ((gymC1.register 12 "newbie" "Yoga").bind fun p =>
      (dlookup p.2.schedule 12).bind fun rooms =>
        (dlookup rooms "B").map fun o => o.clients.length) = some 8 := by
  decide

/-! ### Claim C2 -/

/-- C2 (code bug): the client is free and room A offers Yoga with remaining
capacity, yet `register` returns `False` and changes nothing, because the
loop's `else: return False` fires on room B, which hosts a different
workout.  The claim's "regardless of what other workouts are offered in
other rooms" is exactly what the code violates. -/
theorem c2_register_rejected_by_foreign_workout_cex :
    gymC2.client_free 12 "c" = some true ∧
    gymC2.room_space 12 "A" = some 20 ∧
    ((dlookup gymC2.schedule 12).bind fun rooms =>
      (dlookup rooms "A").map fun o => o.workout.name) = some "Yoga" ∧
    gymC2.register 12 "c" "Yoga" = some (false, gymC2) := by
  decide

/-! ### Claim C3 -/

/-- C3 (code bug): with two offerings at the same slot, `offerings_at`
yields two records but `to_schedule_list()` returns only one — the loop
keeps a single cell per time slot and each matching record overwrites it,
so only the alphabetically last room's record survives. -/
theorem c3_to_schedule_list_drops_records_cex :
    (gymC2.offerings_at 12).map List.length = some 2 ∧
    (gymC2.to_schedule_list none).map List.length = some 1 ∧
    ((gymC2.to_schedule_list none).map fun l =>
      l.map fun e => match e with
        | Sum.inl _ => "datetime"
        | Sum.inr d => d.Room) = some ["B"] := by
  decide

/-! ### Claim C9, amended statement -/

/-- REFINEMENT SPEC (the amended claim C9): the instructor column rendered
with ONE counter shared across all ambiguous names — a record whose
instructor's name is held by more than one registry instructor gets the
suffix " (N)" with N the running count of such records so far in display
order; unique names get no suffix. -/
def nameWithCounter (g : Gym) : List Instructor → Nat → List String
  | [], _ => []
  | ins :: rest, i =>
    if !(g.is_instructor_name_unique ins) then
      (ins.name ++ " (" ++ toString (i + 1) ++ ")")
        :: nameWithCounter g rest (i + 1)
    else ins.name :: nameWithCounter g rest i

/-- The instructors of a listing in display order: room names sorted
ascending, each mapped to its offering's instructor. -/
def displayInstructors (info : List (String × Offering)) : List Instructor :=
  (pysortBy pyStrLe (info.map Prod.fst)).filterMap
    fun r => (dlookup info r).map Offering.instructor

theorem nameWithCounter_cons_unique (g : Gym) (ins : Instructor)
    (rest : List Instructor) (i : Nat)
    (h : g.is_instructor_name_unique ins = true) :
    nameWithCounter g (ins :: rest) i =
      ins.name :: nameWithCounter g rest i := by
  simp only [nameWithCounter]
  rw [if_neg (by simp [h])]

theorem nameWithCounter_cons_shared (g : Gym) (ins : Instructor)
    (rest : List Instructor) (i : Nat)
    (h : g.is_instructor_name_unique ins = false) :
    nameWithCounter g (ins :: rest) i =
      (ins.name ++ " (" ++ toString (i + 1) ++ ")")
        :: nameWithCounter g rest (i + 1) := by
  simp only [nameWithCounter]
  rw [if_pos (by simp [h])]

theorem offeringsLoop_names (g : Gym) (info : List (String × Offering))
    (date time : String) (RL : List String) (i : Nat)
    (hmem : ∀ r ∈ RL, r ∈ info.map Prod.fst)
    (hcap : ∀ r ∈ RL, (dlookup g.room_capacities r).isSome) :
    ∃ l, g.offeringsLoop info date time RL i = some l ∧
      l.map OfferingDict.Instructor =
        nameWithCounter g
          (RL.filterMap fun r => (dlookup info r).map Offering.instructor)
          i := by
  induction RL generalizing i with
  | nil => exact ⟨[], rfl, rfl⟩
  | cons r rest ih =>
    have hoff : (dlookup info r).isSome :=
      dlookup_isSome_iff.mpr (hmem r (List.mem_cons_self r rest))
    obtain ⟨off, hoffv⟩ := Option.isSome_iff_exists.mp hoff
    obtain ⟨cap, hcapv⟩ := Option.isSome_iff_exists.mp
      (hcap r (List.mem_cons_self r rest))
    have hmem' : ∀ q ∈ rest, q ∈ info.map Prod.fst :=
      fun q hq => hmem q (List.mem_cons_of_mem r hq)
    have hcap' : ∀ q ∈ rest, (dlookup g.room_capacities q).isSome :=
      fun q hq => hcap q (List.mem_cons_of_mem r hq)
    by_cases hu : g.is_instructor_name_unique off.instructor = true
    · obtain ⟨l, hl, hnames⟩ := ih i hmem' hcap'
      have heq : g.offeringsLoop info date time (r :: rest) i =
          some (create_offering_dict date time off.workout.name r
            off.clients.length
            (if cap - (off.clients.length : Int) < 0 then 0
             else cap - off.clients.length)
            off.instructor.name :: l) := by
        unfold Gym.offeringsLoop
        rw [hoffv, hcapv]
        simp only [Option.bind_eq_bind, Option.some_bind, hu,
          Bool.not_true, Bool.false_eq_true, if_false]
        rw [hl]
        rfl
      refine ⟨_, heq, ?_⟩
      simp only [List.map_cons, List.filterMap_cons, hoffv, Option.map_some']
      rw [nameWithCounter_cons_unique g off.instructor _ i hu, hnames]
      rfl
    · have hu' : g.is_instructor_name_unique off.instructor = false :=
        Bool.eq_false_iff.mpr hu
      obtain ⟨l, hl, hnames⟩ := ih (i + 1) hmem' hcap'
      have heq : g.offeringsLoop info date time (r :: rest) i =
          some (create_offering_dict date time off.workout.name r
            off.clients.length
            (if cap - (off.clients.length : Int) < 0 then 0
             else cap - off.clients.length)
            (off.instructor.name ++ " (" ++ toString (i + 1) ++ ")") :: l) := by
        unfold Gym.offeringsLoop
        rw [hoffv, hcapv]
        simp only [Option.bind_eq_bind, Option.some_bind, hu',
          Bool.not_false, if_true]
        rw [hl]
        rfl
      refine ⟨_, heq, ?_⟩
      simp only [List.map_cons, List.filterMap_cons, hoffv, Option.map_some']
      rw [nameWithCounter_cons_shared g off.instructor _ i hu', hnames]
      rfl

/-- C9 as amended: `offerings_at` succeeds (given recorded capacities) and
its Instructor column equals the shared-counter rendering, starting at 0,
of the instructors in display order. -/
theorem c9_suffix_is_shared_counter (g : Gym) (t : Nat)
    (info : List (String × Offering))
    (hs : dlookup g.schedule t = some info)
    (hcap : ∀ r ∈ info.map Prod.fst, (dlookup g.room_capacities r).isSome) :
    ∃ l, g.offerings_at t = some l ∧
      l.map OfferingDict.Instructor =
        nameWithCounter g (displayInstructors info) 0 := by
  obtain ⟨l, hl, hnames⟩ := offeringsLoop_names g info (dateStr t) (timeStr t)
    (pysortBy pyStrLe (info.map Prod.fst)) 0
    (fun r hr => (mem_pysortBy pyStrLe _ r).mp hr)
    (fun r hr => hcap r ((mem_pysortBy pyStrLe _ r).mp hr))
  refine ⟨l, ?_, hnames⟩
  unfold Gym.offerings_at
  rw [hs]
  simp only [Option.bind_eq_bind, Option.some_bind]
  exact hl

/-- The room map of the C9 gym at hour 12. -/
def roomsC9 : List (String × Offering) :=
  [("A", ⟨⟨1, "Bob", []⟩, wYoga, []⟩),
   ("B", ⟨⟨2, "Bob", []⟩, wYoga, []⟩),
   ("C", ⟨⟨3, "Diane", []⟩, wYoga, []⟩),
   ("D", ⟨⟨4, "Diane", []⟩, wYoga, []⟩)]

/-- Witness for the amended C9 at the two-Bobs/two-Dianes gym. -/
theorem c9_suffix_is_shared_counter_witness :
    (dlookup gymC9.schedule 12 = some roomsC9 ∧
      ∀ r ∈ roomsC9.map Prod.fst,
        (dlookup gymC9.room_capacities r).isSome) ∧
    ∃ l, gymC9.offerings_at 12 = some l ∧
      l.map OfferingDict.Instructor =
        nameWithCounter gymC9 (displayInstructors roomsC9) 0 :=
  ⟨⟨by decide, by decide⟩,
    c9_suffix_is_shared_counter gymC9 12 roomsC9 (by decide) (by decide)⟩

/-! ### Claim C9, counterexample -/

/-- C9 counterexample: with two Bobs (rooms A, B) and two Dianes (rooms C,
D) in one listing, the code's SINGLE shared counter renders the Dianes as
"Diane (3)" and "Diane (4)" — not "Diane (1)" / "Diane (2)" as a per-name
occurrence counter would. -/
theorem c9_shared_counter_not_per_name_cex :
    (gymC9.offerings_at 12).map (fun l => l.map OfferingDict.Instructor)
        = some ["Bob (1)", "Bob (2)", "Diane (3)", "Diane (4)"] ∧
    ¬ (gymC9.offerings_at 12).map (fun l => l.map OfferingDict.Instructor)
        = some ["Bob (1)", "Bob (2)", "Diane (1)", "Diane (2)"] := by
  decide

/-! ### Claim C4 -/

/-- The `instr_busy` flag of `schedule_workout_class`: the instructor
already teaches some room at `t`. -/
def instrBusyAt (g : Gym) (t : Nat) (iid : Int) : Bool :=
  match dlookup g.schedule t with
  | some rooms => rooms.any fun p => p.2.instructor.get_id == iid
  | none => false

/-- The `room_available` flag of `schedule_workout_class` (true iff the
room has no offering at `t`). -/
def roomFreeAt (g : Gym) (t : Nat) (room : String) : Bool :=
  match dlookup g.schedule t with
  | some rooms => !(dlookup rooms room).isSome
  | none => true

/-- The `instr_qualified` flag: the certificate set is a superset of the
required ones. -/
def qualifiedFor (instructor : Instructor) (workout : WorkoutClass) : Bool :=
  workout.get_required_certificates.all fun c =>
    c ∈ instructor.get_certificates

/-- The state a successful `schedule_workout_class` leaves behind: the
empty-roster offering stored under `t` and `room_name` (with `getD []`
covering the fresh-slot case, where the source first writes `{}`). -/
def scheduledGym (g : Gym) (t : Nat) (room_name : String)
    (instructor : Instructor) (workout : WorkoutClass) : Gym :=
  let rooms0 := (dlookup g.schedule t).getD []
  let sched2 := dinsert g.schedule t
    (dinsert rooms0 room_name ⟨instructor, workout, []⟩)
  { g with schedule := sched2 }

theorem dinsert_dinsert_same {α β : Type} [DecidableEq α]
    (d : List (α × β)) (k : α) (v w : β) :
    dinsert (dinsert d k v) k w = dinsert d k w := by
  induction d with
  | nil => simp [dinsert]
  | cons p rest ih =>
    by_cases hp : p.1 = k
    · simp [dinsert, hp]
    · simp [dinsert, hp, ih]

/-- `schedule_workout_class` as one equation: with the instructor and
workout found in their registries, the call succeeds and inserts the
empty-roster offering iff not busy, qualified and room free; otherwise it
returns `False` with the state untouched. -/
theorem schedule_workout_class_eq (g : Gym) (t : Nat)
    (room_name workout_name : String) (instr_id : Int)
    (instructor : Instructor) (workout : WorkoutClass)
    (hins : dlookup g.instructors instr_id = some instructor)
    (hw : dlookup g.workouts workout_name = some workout) :
    g.schedule_workout_class t room_name workout_name instr_id =
      if !instrBusyAt g t instructor.get_id &&
          qualifiedFor instructor workout && roomFreeAt g t room_name then
        some (true, scheduledGym g t room_name instructor workout)
      else some (false, g) := by
  cases hs : dlookup g.schedule t with
  | none =>
    simp [Gym.schedule_workout_class, hins, hw, hs, instrBusyAt, roomFreeAt,
      qualifiedFor, scheduledGym, dinsert_dinsert_same]
  | some rooms =>
    by_cases hr : (dlookup rooms room_name).isSome
    · simp [Gym.schedule_workout_class, hins, hw, hs, instrBusyAt, roomFreeAt,
        qualifiedFor, scheduledGym, hr]
    · simp [Gym.schedule_workout_class, hins, hw, hs, instrBusyAt, roomFreeAt,
        qualifiedFor, scheduledGym, hr]

/-- C4: with room, instructor and workout registered, the call returns
`True` and inserts a fresh offering with an empty client list iff the
instructor is not teaching at `t`, the room is unscheduled at `t` and the
certificates cover the requirements; any failing condition yields `False`
with the whole state unchanged. -/
theorem c4_schedule_workout_class_iff (g : Gym) (t : Nat)
    (room_name workout_name : String) (instr_id : Int)
    (instructor : Instructor) (workout : WorkoutClass)
    (hins : dlookup g.instructors instr_id = some instructor)
    (hw : dlookup g.workouts workout_name = some workout)
    (hroom : (dlookup g.room_capacities room_name).isSome) :
    (instrBusyAt g t instructor.get_id = false ∧
        qualifiedFor instructor workout = true ∧
        roomFreeAt g t room_name = true →
      g.schedule_workout_class t room_name workout_name instr_id =
        some (true, scheduledGym g t room_name instructor workout)) ∧
    (¬ (instrBusyAt g t instructor.get_id = false ∧
        qualifiedFor instructor workout = true ∧
        roomFreeAt g t room_name = true) →
      g.schedule_workout_class t room_name workout_name instr_id =
        some (false, g)) := by
  rw [schedule_workout_class_eq g t room_name workout_name instr_id
    instructor workout hins hw]
  constructor
  · rintro ⟨hb, hq, hr⟩
    simp [hb, hq, hr]
  · intro hfail
    rcases Bool.eq_false_or_eq_true (!instrBusyAt g t instructor.get_id &&
        qualifiedFor instructor workout && roomFreeAt g t room_name) with
      h | h
    · exfalso
      apply hfail
      have h2 := h
      simp only [Bool.and_eq_true, Bool.not_eq_true'] at h2
      exact ⟨h2.1.1, h2.1.2, h2.2⟩
    · simp [h]

/-- Witness for C4: the class docstring's own example — Jacqueline
(certified "Cardio 1") scheduled for Boot Camp in the lower gym of a fresh
gym at hour 12; all three conditions hold and the offering is inserted. -/
theorem c4_schedule_workout_class_iff_witness :
    (dlookup gymW.instructors 1 = some ⟨1, "Jacqueline Smith", ["Cardio 1"]⟩ ∧
     dlookup gymW.workouts "Boot Camp" = some ⟨"Boot Camp", ["Cardio 1"]⟩ ∧
     (dlookup gymW.room_capacities "lower gym").isSome = true ∧
     instrBusyAt gymW 12 1 = false ∧
     qualifiedFor ⟨1, "Jacqueline Smith", ["Cardio 1"]⟩
        ⟨"Boot Camp", ["Cardio 1"]⟩ = true ∧
     roomFreeAt gymW 12 "lower gym" = true) ∧
    gymW.schedule_workout_class 12 "lower gym" "Boot Camp" 1 =
      some (true, scheduledGym gymW 12 "lower gym"
        ⟨1, "Jacqueline Smith", ["Cardio 1"]⟩ ⟨"Boot Camp", ["Cardio 1"]⟩) :=
  ⟨by decide,
    (c4_schedule_workout_class_iff gymW 12 "lower gym" "Boot Camp" 1
      ⟨1, "Jacqueline Smith", ["Cardio 1"]⟩ ⟨"Boot Camp", ["Cardio 1"]⟩
      (by decide) (by decide) (by decide)).1 (by decide)⟩

/-! ### Schedule invariants (claims C5, C6) -/

/-- Invariant (a): at every slot each room occurs at most once (the Python
dict cannot hold a room key twice; in the list model this is key
nodupness). -/
def RoomsNodup (g : Gym) : Prop :=
  ∀ t rooms, dlookup g.schedule t = some rooms → (rooms.map Prod.fst).Nodup

/-- Invariant (b): no instructor teaches two offerings in one slot. -/
def InstructorOnce (g : Gym) : Prop :=
  ∀ t rooms r1 r2 o1 o2, dlookup g.schedule t = some rooms →
    dlookup rooms r1 = some o1 → dlookup rooms r2 = some o2 → r1 ≠ r2 →
    o1.instructor.get_id ≠ o2.instructor.get_id

/-- Invariant (c): no client is in two rosters of one slot. -/
def ClientOnce (g : Gym) : Prop :=
  ∀ t rooms r1 r2 o1 o2 c, dlookup g.schedule t = some rooms →
    dlookup rooms r1 = some o1 → dlookup rooms r2 = some o2 →
    c ∈ o1.clients → c ∈ o2.clients → r1 = r2

/-- The three double-booking invariants of claim C5 together. -/
def SchedInv (g : Gym) : Prop := RoomsNodup g ∧ InstructorOnce g ∧ ClientOnce g

theorem schedInv_of_schedule_eq {g g' : Gym} (hs : g'.schedule = g.schedule)
    (h : SchedInv g) : SchedInv g' := by
  obtain ⟨h1, h2, h3⟩ := h
  refine ⟨?_, ?_, ?_⟩
  · intro t rooms hl; exact h1 t rooms (hs ▸ hl)
  · intro t rooms r1 r2 o1 o2 hl; exact h2 t rooms r1 r2 o1 o2 (hs ▸ hl)
  · intro t rooms r1 r2 o1 o2 c hl; exact h3 t rooms r1 r2 o1 o2 c (hs ▸ hl)

theorem schedule_add_instructor (g : Gym) (i : Instructor) :
    ((g.add_instructor i).2).schedule = g.schedule := by
  unfold Gym.add_instructor; split <;> rfl

theorem schedule_add_workout_class (g : Gym) (w : WorkoutClass) :
    ((g.add_workout_class w).2).schedule = g.schedule := by
  unfold Gym.add_workout_class; split <;> rfl

theorem schedule_add_room (g : Gym) (n : String) (c : Int) :
    ((g.add_room n c).2).schedule = g.schedule := by
  unfold Gym.add_room; split <;> rfl

theorem regLoop_inr_cf {g : Gym} {t : Nat} {w : WorkoutClass} {cf : Bool}
    {rooms : List (String × Offering)} {wr0 wr : List (Int × String)}
    (h : g.regLoop t w cf rooms wr0 = some (Sum.inr wr)) :
    wr = wr0 ∨ cf = true := by
  induction rooms generalizing wr0 with
  | nil =>
    simp [Gym.regLoop] at h
    left; exact h.symm
  | cons p rest ih =>
    obtain ⟨room, off⟩ := p
    unfold Gym.regLoop at h
    split at h
    · split at h
      · simp at h
      · split at h
        next hcond => right; exact hcond.2
        next => simp at h
    · simp at h

/-- Entries of the accumulated `workout_rooms` dict: each new entry records
an actual free-space computation that was strictly positive. -/
theorem regLoop_inr_mem {g : Gym} {t : Nat} {w : WorkoutClass} {cf : Bool}
    {rooms : List (String × Offering)} {wr0 wr : List (Int × String)}
    (h : g.regLoop t w cf rooms wr0 = some (Sum.inr wr)) :
    ∀ s r, (s, r) ∈ wr → (s, r) ∈ wr0 ∨
      (g.room_space t r = some s ∧ ¬s ≤ 0) := by
  induction rooms generalizing wr0 with
  | nil =>
    simp [Gym.regLoop] at h
    intro s r hm; left; rw [h]; exact hm
  | cons p rest ih =>
    obtain ⟨room, off⟩ := p
    unfold Gym.regLoop at h
    split at h
    · split at h
      next heq => simp at h
      next space heq =>
        split at h
        next hcond =>
          intro s r hm
          rcases ih h s r hm with hin | hgood
          · rcases mem_dinsert hin with hin0 | hnew
            · left; exact hin0
            · right
              have hs : s = space := congrArg Prod.fst hnew
              have hr : r = room := congrArg Prod.snd hnew
              subst hs; subst hr
              exact ⟨heq, hcond.1⟩
          · right; exact hgood
        next => simp at h
    · simp at h

theorem foldl_append_clients (rooms : List (String × Offering))
    (acc : List String) :
    rooms.foldl (fun a p => a ++ p.2.clients) acc
      = acc ++ (rooms.map fun p => p.2.clients).flatten := by
  induction rooms generalizing acc with
  | nil => simp
  | cons p rest ih => simp [ih, List.append_assoc]

/-- `client_free` returning `True` means the client is in no roster of the
slot. -/
theorem client_free_spec {g : Gym} {t : Nat} {c : String}
    {rooms : List (String × Offering)}
    (hs : dlookup g.schedule t = some rooms)
    (h : g.client_free t c = some true) :
    ∀ p ∈ rooms, c ∉ p.2.clients := by
  unfold Gym.client_free at h
  rw [hs] at h
  simp only [Option.bind_eq_bind, Option.some_bind, Option.pure_def,
    Option.some.injEq, decide_eq_true_eq] at h
  intro p hp hc
  apply h
  rw [foldl_append_clients]
  simp only [List.nil_append]
  exact List.mem_flatten_of_mem (List.mem_map_of_mem _ hp) hc

/-- The state a successful `register` leaves behind: the chosen room's
roster extended by the client. -/
def registeredGym (g : Gym) (t : Nat) (rooms : List (String × Offering))
    (chosen : String) (off : Offering) (c : String) : Gym :=
  let sched2 := dinsert g.schedule t
    (dinsert rooms chosen { off with clients := off.clients ++ [c] })
  { g with schedule := sched2 }

/-- Key structural consequence of a successful `register`: the new state is
the old one with one roster extended by the client, and the loop conditions
give the facts the invariants need. -/
theorem register_true_elim {g g' : Gym} {t : Nat} {c w : String}
    (hres : g.register t c w = some (true, g')) :
    ∃ rooms chosen off,
      dlookup g.schedule t = some rooms ∧
      dlookup rooms chosen = some off ∧
      g.client_free t c = some true ∧
      (g.room_space t chosen).isSome ∧
      (∀ s, g.room_space t chosen = some s → ¬s ≤ 0) ∧
      g' = registeredGym g t rooms chosen off c := by
  unfold Gym.register at hres
  split at hres
  next => exact absurd hres (by simp)
  next workout hW =>
    split at hres
    next => exact absurd hres (by simp)
    next cf hcf =>
      split at hres
      next => exact absurd hres (by simp)
      next rooms hs =>
        split at hres
        next => exact absurd hres (by simp)
        next u hloop => exact absurd hres (by simp)
        next wr hloop =>
          split at hres
          next => exact absurd hres (by simp)
          next m hmax =>
            split at hres
            next => exact absurd hres (by simp)
            next chosen hch =>
              split at hres
              next => exact absurd hres (by simp)
              next off hoff =>
                simp only [Option.some.injEq, Prod.mk.injEq, true_and] at hres
                refine ⟨rooms, chosen, off, hs, hoff, ?_, ?_, ?_, hres.symm⟩
                · rcases regLoop_inr_cf hloop with hwr | hcf1
                  · subst hwr; simp [maxKey] at hmax
                  · rw [hcf1] at hcf; exact hcf
                · have hmem := mem_of_dlookup hch
                  rcases regLoop_inr_mem hloop m chosen hmem with h0 | hgood
                  · simp at h0
                  · rw [hgood.1]; rfl
                · intro s hsp
                  have hmem := mem_of_dlookup hch
                  rcases regLoop_inr_mem hloop m chosen hmem with h0 | hgood
                  · simp at h0
                  · rw [hgood.1] at hsp
                    cases hsp; exact hgood.2

theorem lookup_scheduledGym (g : Gym) (t : Nat) (room : String)
    (instructor : Instructor) (workout : WorkoutClass) (t' : Nat) :
    dlookup (scheduledGym g t room instructor workout).schedule t' =
      if t' = t then
        some (dinsert ((dlookup g.schedule t).getD []) room
          ⟨instructor, workout, []⟩)
      else dlookup g.schedule t' := by
  simp [scheduledGym, dlookup_dinsert]

/-- A successful `schedule_workout_class` preserves the double-booking
invariants: the room was free and the instructor idle at the slot. -/
theorem schedInv_scheduledGym {g : Gym} {t : Nat} {room : String}
    {instructor : Instructor} {workout : WorkoutClass}
    (h : SchedInv g)
    (hbusy : instrBusyAt g t instructor.get_id = false)
    (hfree : roomFreeAt g t room = true) :
    SchedInv (scheduledGym g t room instructor workout) := by
  obtain ⟨h1, h2, h3⟩ := h
  have hnotin : ∀ rooms, dlookup g.schedule t = some rooms →
      dlookup rooms room = none := by
    intro rooms hs
    unfold roomFreeAt at hfree
    rw [hs] at hfree
    simp only [Bool.not_eq_true'] at hfree
    exact Option.not_isSome_iff_eq_none.mp (by simp [hfree])
  have hidle : ∀ rooms, dlookup g.schedule t = some rooms →
      ∀ p ∈ rooms, p.2.instructor.get_id ≠ instructor.get_id := by
    intro rooms hs p hp
    unfold instrBusyAt at hbusy
    rw [hs] at hbusy
    rw [List.any_eq_false] at hbusy
    have := hbusy p hp
    simpa using this
  refine ⟨?_, ?_, ?_⟩
  · intro t' rooms' hl
    rw [lookup_scheduledGym] at hl
    by_cases ht : t' = t
    · rw [if_pos ht] at hl
      cases hs : dlookup g.schedule t with
      | none =>
        rw [hs] at hl
        simp only [Option.getD_none, Option.some.injEq] at hl
        subst hl; simp [dinsert]
      | some rooms =>
        rw [hs] at hl
        simp only [Option.getD_some, Option.some.injEq] at hl
        subst hl
        rw [keys_dinsert_none _ (hnotin rooms hs)]
        rw [← List.concat_eq_append]
        exact List.Nodup.concat (dlookup_eq_none_iff.mp (hnotin rooms hs))
          (h1 t rooms hs)
    · rw [if_neg ht] at hl
      exact h1 t' rooms' hl
  · intro t' rooms' r1 r2 o1 o2 hl hl1 hl2 hne
    rw [lookup_scheduledGym] at hl
    by_cases ht : t' = t
    · rw [if_pos ht] at hl
      cases hs : dlookup g.schedule t with
      | none =>
        rw [hs] at hl
        simp only [Option.getD_none, Option.some.injEq] at hl
        subst hl
        rw [dlookup_dinsert] at hl1 hl2
        by_cases hr1 : r1 = room
        · have hr2 : r2 ≠ room := fun he => hne (hr1.trans he.symm)
          rw [if_neg hr2] at hl2
          simp [dlookup] at hl2
        · rw [if_neg hr1] at hl1
          simp [dlookup] at hl1
      | some rooms =>
        rw [hs] at hl
        simp only [Option.getD_some, Option.some.injEq] at hl
        subst hl
        rw [dlookup_dinsert] at hl1 hl2
        by_cases hr1 : r1 = room
        · have hr2 : r2 ≠ room := fun he => hne (hr1.trans he.symm)
          rw [if_pos hr1] at hl1
          rw [if_neg hr2] at hl2
          cases hl1
          have := hidle rooms hs (r2, o2) (mem_of_dlookup hl2)
          simpa [ne_comm] using this
        · by_cases hr2 : r2 = room
          · rw [if_pos hr2] at hl2
            rw [if_neg hr1] at hl1
            cases hl2
            exact hidle rooms hs (r1, o1) (mem_of_dlookup hl1)
          · rw [if_neg hr1] at hl1
            rw [if_neg hr2] at hl2
            exact h2 t rooms r1 r2 o1 o2 hs hl1 hl2 hne
    · rw [if_neg ht] at hl
      exact h2 t' rooms' r1 r2 o1 o2 hl hl1 hl2 hne
  · intro t' rooms' r1 r2 o1 o2 c hl hl1 hl2 hc1 hc2
    rw [lookup_scheduledGym] at hl
    by_cases ht : t' = t
    · rw [if_pos ht] at hl
      cases hs : dlookup g.schedule t with
      | none =>
        rw [hs] at hl
        simp only [Option.getD_none, Option.some.injEq] at hl
        subst hl
        rw [dlookup_dinsert] at hl1
        by_cases hr1 : r1 = room
        · rw [if_pos hr1] at hl1
          cases hl1
          simp at hc1
        · rw [if_neg hr1] at hl1
          simp [dlookup] at hl1
      | some rooms =>
        rw [hs] at hl
        simp only [Option.getD_some, Option.some.injEq] at hl
        subst hl
        rw [dlookup_dinsert] at hl1 hl2
        by_cases hr1 : r1 = room
        · rw [if_pos hr1] at hl1
          cases hl1
          simp at hc1
        · by_cases hr2 : r2 = room
          · rw [if_pos hr2] at hl2
            cases hl2
            simp at hc2
          · rw [if_neg hr1] at hl1
            rw [if_neg hr2] at hl2
            exact h3 t rooms r1 r2 o1 o2 c hs hl1 hl2 hc1 hc2
    · rw [if_neg ht] at hl
      exact h3 t' rooms' r1 r2 o1 o2 c hl hl1 hl2 hc1 hc2

theorem lookup_registeredGym (g : Gym) (t : Nat)
    (rooms : List (String × Offering)) (chosen : String) (off : Offering)
    (c : String) (t' : Nat) :
    dlookup (registeredGym g t rooms chosen off c).schedule t' =
      if t' = t then
        some (dinsert rooms chosen { off with clients := off.clients ++ [c] })
      else dlookup g.schedule t' := by
  simp [registeredGym, dlookup_dinsert]

/-- A successful `register` preserves the double-booking invariants: the
client was free at the slot and only one roster is extended. -/
theorem schedInv_registeredGym {g : Gym} {t : Nat}
    {rooms : List (String × Offering)} {chosen : String} {off : Offering}
    {c : String} (h : SchedInv g)
    (hs : dlookup g.schedule t = some rooms)
    (hoff : dlookup rooms chosen = some off)
    (hcf : g.client_free t c = some true) :
    SchedInv (registeredGym g t rooms chosen off c) := by
  obtain ⟨h1, h2, h3⟩ := h
  have hfree := client_free_spec hs hcf
  refine ⟨?_, ?_, ?_⟩
  · intro t' rooms' hl
    rw [lookup_registeredGym] at hl
    by_cases ht : t' = t
    · rw [if_pos ht] at hl
      cases hl
      rw [keys_dinsert_some _ (by simp [hoff])]
      exact h1 t rooms hs
    · rw [if_neg ht] at hl
      exact h1 t' rooms' hl
  · intro t' rooms' r1 r2 o1 o2 hl hl1 hl2 hne
    rw [lookup_registeredGym] at hl
    by_cases ht : t' = t
    · rw [if_pos ht] at hl
      cases hl
      rw [dlookup_dinsert] at hl1 hl2
      by_cases hr1 : r1 = chosen
      · have hr2 : r2 ≠ chosen := fun he => hne (hr1.trans he.symm)
        rw [if_pos hr1] at hl1
        rw [if_neg hr2] at hl2
        cases hl1
        have := h2 t rooms r1 r2 off o2 hs (hr1 ▸ hoff) hl2 hne
        simpa using this
      · by_cases hr2 : r2 = chosen
        · rw [if_pos hr2] at hl2
          rw [if_neg hr1] at hl1
          cases hl2
          have := h2 t rooms r1 r2 o1 off hs hl1 (hr2 ▸ hoff) hne
          simpa using this
        · rw [if_neg hr1] at hl1
          rw [if_neg hr2] at hl2
          exact h2 t rooms r1 r2 o1 o2 hs hl1 hl2 hne
    · rw [if_neg ht] at hl
      exact h2 t' rooms' r1 r2 o1 o2 hl hl1 hl2 hne
  · intro t' rooms' r1 r2 o1 o2 c' hl hl1 hl2 hc1 hc2
    rw [lookup_registeredGym] at hl
    by_cases ht : t' = t
    · rw [if_pos ht] at hl
      cases hl
      rw [dlookup_dinsert] at hl1 hl2
      by_cases hr1 : r1 = chosen
      · by_cases hr2 : r2 = chosen
        · exact hr1.trans hr2.symm
        · rw [if_pos hr1] at hl1
          rw [if_neg hr2] at hl2
          cases hl1
          simp only [List.mem_append, List.mem_singleton] at hc1
          rcases hc1 with hc1 | hc1
          · exact h3 t rooms r1 r2 off o2 c' hs (by rw [hr1]; exact hoff)
              hl2 hc1 hc2
          · subst hc1
            exact absurd hc2 (hfree (r2, o2) (mem_of_dlookup hl2))
      · by_cases hr2 : r2 = chosen
        · rw [if_pos hr2] at hl2
          rw [if_neg hr1] at hl1
          cases hl2
          simp only [List.mem_append, List.mem_singleton] at hc2
          rcases hc2 with hc2 | hc2
          · exact h3 t rooms r1 r2 o1 off c' hs hl1 (by rw [hr2]; exact hoff)
              hc1 hc2
          · subst hc2
            exact absurd hc1 (hfree (r1, o1) (mem_of_dlookup hl1))
        · rw [if_neg hr1] at hl1
          rw [if_neg hr2] at hl2
          exact h3 t rooms r1 r2 o1 o2 c' hs hl1 hl2 hc1 hc2
    · rw [if_neg ht] at hl
      exact h3 t' rooms' r1 r2 o1 o2 c' hl hl1 hl2 hc1 hc2

/-- Any answer of `schedule_workout_class` is either the unchanged state or
the guarded insertion. -/
theorem schedule_workout_class_some_elim {g g' : Gym} {t : Nat}
    {room wn : String} {iid : Int} {b : Bool}
    (hres : g.schedule_workout_class t room wn iid = some (b, g')) :
    g' = g ∨ ∃ instructor workout,
      dlookup g.instructors iid = some instructor ∧
      instrBusyAt g t instructor.get_id = false ∧
      roomFreeAt g t room = true ∧
      g' = scheduledGym g t room instructor workout := by
  cases hI : dlookup g.instructors iid with
  | none =>
    unfold Gym.schedule_workout_class at hres
    rw [hI] at hres
    simp at hres
  | some instructor =>
    cases hW : dlookup g.workouts wn with
    | none =>
      unfold Gym.schedule_workout_class at hres
      rw [hI, hW] at hres
      simp at hres
    | some workout =>
      rw [schedule_workout_class_eq g t room wn iid instructor workout hI hW]
        at hres
      split at hres
      next hcond =>
        simp only [Option.some.injEq, Prod.mk.injEq] at hres
        right
        refine ⟨instructor, workout, rfl, ?_, ?_, hres.2.symm⟩
        · have := hcond
          simp only [Bool.and_eq_true, Bool.not_eq_true'] at this
          exact this.1.1
        · have := hcond
          simp only [Bool.and_eq_true, Bool.not_eq_true'] at this
          exact this.2
      next =>
        simp only [Option.some.injEq, Prod.mk.injEq] at hres
        left; exact hres.2.symm

/-- Any answer of `register` is either the unchanged state or the guarded
roster extension. -/
theorem register_some_elim {g g' : Gym} {t : Nat} {c w : String} {b : Bool}
    (hres : g.register t c w = some (b, g')) :
    g' = g ∨ ∃ rooms chosen off,
      dlookup g.schedule t = some rooms ∧
      dlookup rooms chosen = some off ∧
      g.client_free t c = some true ∧
      (g.room_space t chosen).isSome ∧
      (∀ s, g.room_space t chosen = some s → ¬s ≤ 0) ∧
      g' = registeredGym g t rooms chosen off c := by
  cases b with
  | false =>
    left
    unfold Gym.register at hres
    split at hres
    next => exact absurd hres (by simp)
    next =>
      split at hres
      next => exact absurd hres (by simp)
      next =>
        split at hres
        next => exact absurd hres (by simp)
        next =>
          split at hres
          next => exact absurd hres (by simp)
          next =>
            simp only [Option.some.injEq, Prod.mk.injEq, true_and] at hres
            exact hres.symm
          next =>
            split at hres
            next => exact absurd hres (by simp)
            next =>
              split at hres
              next => exact absurd hres (by simp)
              next =>
                split at hres
                next => exact absurd hres (by simp)
                next => exact absurd hres (by simp)
  | true =>
    obtain ⟨rooms, chosen, off, hs, hoff, hcf, hsp, hpos, hg⟩ :=
      register_true_elim hres
    right
    exact ⟨rooms, chosen, off, hs, hoff, hcf, hsp, hpos, hg⟩

theorem schedInv_applyOp {g : Gym} (h : SchedInv g) (op : Op) :
    SchedInv (applyOp g op) := by
  cases op with
  | addInstructor ins =>
    exact schedInv_of_schedule_eq (schedule_add_instructor g ins) h
  | addCertificate iid c =>
    cases hI : dlookup g.instructors iid with
    | none => simpa [applyOp, hI] using h
    | some ins =>
      simp only [applyOp, hI]
      exact schedInv_of_schedule_eq rfl h
  | addWorkoutClass w =>
    exact schedInv_of_schedule_eq (schedule_add_workout_class g w) h
  | addRoom n cap =>
    exact schedInv_of_schedule_eq (schedule_add_room g n cap) h
  | scheduleClass t r wn iid =>
    cases hres : g.schedule_workout_class t r wn iid with
    | none => simpa [applyOp, hres] using h
    | some p =>
      obtain ⟨b, g'⟩ := p
      simp only [applyOp, hres]
      rcases schedule_workout_class_some_elim hres with hg | hg
      · exact hg ▸ h
      · obtain ⟨instructor, workout, _, hbusy, hfree, hg'⟩ := hg
        rw [hg']
        exact schedInv_scheduledGym h hbusy hfree
  | registerClient t c w =>
    cases hres : g.register t c w with
    | none => simpa [applyOp, hres] using h
    | some p =>
      obtain ⟨b, g'⟩ := p
      simp only [applyOp, hres]
      rcases register_some_elim hres with hg | hg
      · exact hg ▸ h
      · obtain ⟨rooms, chosen, off, hs, hoff, hcf, _, _, hg'⟩ := hg
        rw [hg']
        exact schedInv_registeredGym h hs hoff hcf

theorem schedInv_init (name : String) : SchedInv (Gym.init name) := by
  refine ⟨?_, ?_, ?_⟩
  · intro t rooms hl
    simp [Gym.init, dlookup] at hl
  · intro t rooms r1 r2 o1 o2 hl
    simp [Gym.init, dlookup] at hl
  · intro t rooms r1 r2 o1 o2 c hl
    simp [Gym.init, dlookup] at hl

theorem schedInv_runOps {g : Gym} (h : SchedInv g) (ops : List Op) :
    SchedInv (runOps g ops) := by
  induction ops generalizing g with
  | nil => exact h
  | cons op rest ih => exact ih (schedInv_applyOp h op)

/-! ### Claim C5 -/

/-- C5: along every sequence of engine calls from a fresh gym — adds,
schedules and registrations, successful, failed or raising — no room holds
two offerings in one slot, no instructor teaches twice in one slot, and no
client is registered twice in one slot. -/
theorem c5_no_double_booking (name : String) (ops : List Op) :
    RoomsNodup (runOps (Gym.init name) ops) ∧
    InstructorOnce (runOps (Gym.init name) ops) ∧
    ClientOnce (runOps (Gym.init name) ops) :=
  schedInv_runOps (schedInv_init name) ops

/-! ### Capacity invariants (claim C6) -/

/-- The capacity bound of claim C6: every offering's roster is at most as
long as the capacity recorded for its room. -/
def CapInv (g : Gym) : Prop :=
  ∀ t rooms r off cap, dlookup g.schedule t = some rooms →
    dlookup rooms r = some off → dlookup g.room_capacities r = some cap →
    (off.clients.length : Int) ≤ cap

/-- Auxiliary invariant: a room scheduled without a recorded capacity keeps
an empty roster (`register` raises on it before appending). -/
def NoCapEmpty (g : Gym) : Prop :=
  ∀ t rooms r off, dlookup g.schedule t = some rooms →
    dlookup rooms r = some off → dlookup g.room_capacities r = none →
    off.clients = []

/-- Auxiliary invariant: recorded capacities are positive (data model:
"integer capacity > 0"; `add_room` itself does not validate, so this is
carried as a hypothesis on the call sequence). -/
def CapsPos (g : Gym) : Prop :=
  ∀ r cap, dlookup g.room_capacities r = some cap → 0 < cap

/-- The three capacity facts maintained together. -/
def CapOK (g : Gym) : Prop := CapInv g ∧ NoCapEmpty g ∧ CapsPos g

/-- The data-model restriction on one call: rooms are added with positive
capacity. -/
def opCapPos : Op → Bool
  | .addRoom _ c => decide (0 < c)
  | _ => true

theorem capOK_congr {g g' : Gym} (hs : g'.schedule = g.schedule)
    (hc : g'.room_capacities = g.room_capacities) (h : CapOK g) : CapOK g' := by
  obtain ⟨h1, h2, h3⟩ := h
  refine ⟨?_, ?_, ?_⟩
  · intro t rooms r off cap hl ho hcp
    exact h1 t rooms r off cap (hs ▸ hl) ho (hc ▸ hcp)
  · intro t rooms r off hl ho hcp
    exact h2 t rooms r off (hs ▸ hl) ho (hc ▸ hcp)
  · intro r cap hcp
    exact h3 r cap (hc ▸ hcp)

theorem caps_add_instructor (g : Gym) (i : Instructor) :
    ((g.add_instructor i).2).room_capacities = g.room_capacities := by
  unfold Gym.add_instructor; split <;> rfl

theorem caps_add_workout_class (g : Gym) (w : WorkoutClass) :
    ((g.add_workout_class w).2).room_capacities = g.room_capacities := by
  unfold Gym.add_workout_class; split <;> rfl

theorem room_space_elim {g : Gym} {t : Nat} {chosen : String} {s : Int}
    (h : g.room_space t chosen = some s) :
    ∃ rooms off cap, dlookup g.schedule t = some rooms ∧
      dlookup rooms chosen = some off ∧
      dlookup g.room_capacities chosen = some cap ∧
      s = cap - off.clients.length := by
  unfold Gym.room_space at h
  cases h1 : dlookup g.schedule t with
  | none => rw [h1] at h; simp at h
  | some rooms =>
    rw [h1] at h
    simp only [Option.bind_eq_bind, Option.some_bind] at h
    cases h2 : dlookup rooms chosen with
    | none => rw [h2] at h; simp at h
    | some off =>
      rw [h2] at h
      simp only [Option.some_bind] at h
      cases h3 : dlookup g.room_capacities chosen with
      | none => rw [h3] at h; simp at h
      | some cap =>
        rw [h3] at h
        simp only [Option.some_bind, Option.pure_def, Option.some.injEq] at h
        exact ⟨rooms, off, cap, rfl, h2, rfl, h.symm⟩

theorem capOK_scheduledGym {g : Gym} {t : Nat} {room : String}
    {instructor : Instructor} {workout : WorkoutClass} (h : CapOK g) :
    CapOK (scheduledGym g t room instructor workout) := by
  obtain ⟨h1, h2, h3⟩ := h
  have hcaps : (scheduledGym g t room instructor workout).room_capacities
      = g.room_capacities := rfl
  refine ⟨?_, ?_, ?_⟩
  · intro t' rooms' r off cap hl ho hcp
    rw [lookup_scheduledGym] at hl
    rw [hcaps] at hcp
    by_cases ht : t' = t
    · rw [if_pos ht] at hl
      cases hl
      rw [dlookup_dinsert] at ho
      by_cases hr : r = room
      · rw [if_pos hr] at ho
        cases ho
        simp only [List.length_nil, Int.ofNat_eq_coe, Nat.cast_zero]
        exact le_of_lt (h3 r cap hcp)
      · rw [if_neg hr] at ho
        cases hs : dlookup g.schedule t with
        | none => rw [hs] at ho; simp [dlookup] at ho
        | some rooms =>
          rw [hs] at ho
          exact h1 t rooms r off cap hs ho hcp
    · rw [if_neg ht] at hl
      exact h1 t' rooms' r off cap hl ho hcp
  · intro t' rooms' r off hl ho hcp
    rw [lookup_scheduledGym] at hl
    rw [hcaps] at hcp
    by_cases ht : t' = t
    · rw [if_pos ht] at hl
      cases hl
      rw [dlookup_dinsert] at ho
      by_cases hr : r = room
      · rw [if_pos hr] at ho
        cases ho
        rfl
      · rw [if_neg hr] at ho
        cases hs : dlookup g.schedule t with
        | none => rw [hs] at ho; simp [dlookup] at ho
        | some rooms =>
          rw [hs] at ho
          exact h2 t rooms r off hs ho hcp
    · rw [if_neg ht] at hl
      exact h2 t' rooms' r off hl ho hcp
  · intro r cap hcp
    exact h3 r cap (hcaps ▸ hcp)

theorem capOK_registeredGym {g : Gym} {t : Nat}
    {rooms : List (String × Offering)} {chosen : String} {off : Offering}
    {c : String} (h : CapOK g)
    (hs : dlookup g.schedule t = some rooms)
    (hoff : dlookup rooms chosen = some off)
    (hsp : (g.room_space t chosen).isSome)
    (hpos : ∀ s, g.room_space t chosen = some s → ¬s ≤ 0) :
    CapOK (registeredGym g t rooms chosen off c) := by
  obtain ⟨h1, h2, h3⟩ := h
  obtain ⟨s, hsval⟩ := Option.isSome_iff_exists.mp hsp
  obtain ⟨rooms2, off2, cap2, hs2, hoff2, hcap2, hseq⟩ := room_space_elim hsval
  rw [hs] at hs2
  cases hs2
  rw [hoff] at hoff2
  cases hoff2
  have hroomup : (off.clients.length : Int) + 1 ≤ cap2 := by
    have := hpos s hsval
    omega
  have hcaps : (registeredGym g t rooms chosen off c).room_capacities
      = g.room_capacities := rfl
  refine ⟨?_, ?_, ?_⟩
  · intro t' rooms' r off' cap hl ho hcp
    rw [lookup_registeredGym] at hl
    rw [hcaps] at hcp
    by_cases ht : t' = t
    · rw [if_pos ht] at hl
      cases hl
      rw [dlookup_dinsert] at ho
      by_cases hr : r = chosen
      · rw [if_pos hr] at ho
        cases ho
        have hcapeq : cap = cap2 := by
          rw [hr] at hcp
          rw [hcp] at hcap2
          exact (Option.some.injEq _ _ ▸ hcap2 : _)
        simp only [List.length_append, List.length_singleton]
        rw [hcapeq]
        push_cast
        omega
      · rw [if_neg hr] at ho
        exact h1 t rooms r off' cap hs ho hcp
    · rw [if_neg ht] at hl
      exact h1 t' rooms' r off' cap hl ho hcp
  · intro t' rooms' r off' hl ho hcp
    rw [lookup_registeredGym] at hl
    rw [hcaps] at hcp
    by_cases ht : t' = t
    · rw [if_pos ht] at hl
      cases hl
      rw [dlookup_dinsert] at ho
      by_cases hr : r = chosen
      · exfalso
        rw [hr] at hcp
        rw [hcp] at hcap2
        exact Option.noConfusion hcap2
      · rw [if_neg hr] at ho
        exact h2 t rooms r off' hs ho hcp
    · rw [if_neg ht] at hl
      exact h2 t' rooms' r off' hl ho hcp
  · intro r cap hcp
    exact h3 r cap (hcaps ▸ hcp)

theorem capOK_applyOp {g : Gym} (h : CapOK g) {op : Op}
    (hop : opCapPos op = true) : CapOK (applyOp g op) := by
  cases op with
  | addInstructor ins =>
    exact capOK_congr (schedule_add_instructor g ins)
      (caps_add_instructor g ins) h
  | addCertificate iid c =>
    cases hI : dlookup g.instructors iid with
    | none => simpa [applyOp, hI] using h
    | some ins =>
      simp only [applyOp, hI]
      exact capOK_congr rfl rfl h
  | addWorkoutClass w =>
    exact capOK_congr (schedule_add_workout_class g w)
      (caps_add_workout_class g w) h
  | addRoom n cap =>
    obtain ⟨h1, h2, h3⟩ := h
    by_cases hn : (dlookup g.room_capacities n).isSome
    · simpa [applyOp, Gym.add_room, hn] using ⟨h1, h2, h3⟩
    · have hnone : dlookup g.room_capacities n = none := by
        simpa using Option.not_isSome_iff_eq_none.mp (by simpa using hn)
      have hcappos : (0 : Int) < cap := by
        simpa [opCapPos] using hop
      simp only [applyOp, Gym.add_room, hn, Bool.false_eq_true, if_false]
      refine ⟨?_, ?_, ?_⟩
      · intro t rooms r off cap' hl ho hcp
        simp only at hl hcp
        rw [dlookup_dinsert] at hcp
        by_cases hr : r = n
        · rw [if_pos hr] at hcp
          cases hcp
          have : off.clients = [] :=
            h2 t rooms r off hl ho (by rw [hr]; exact hnone)
          rw [this]
          simpa using le_of_lt hcappos
        · rw [if_neg hr] at hcp
          exact h1 t rooms r off cap' hl ho hcp
      · intro t rooms r off hl ho hcp
        simp only at hl hcp
        rw [dlookup_dinsert] at hcp
        by_cases hr : r = n
        · rw [if_pos hr] at hcp
          exact Option.noConfusion hcp
        · rw [if_neg hr] at hcp
          exact h2 t rooms r off hl ho hcp
      · intro r cap' hcp
        simp only at hcp
        rw [dlookup_dinsert] at hcp
        by_cases hr : r = n
        · rw [if_pos hr] at hcp
          cases hcp
          exact hcappos
        · rw [if_neg hr] at hcp
          exact h3 r cap' hcp
  | scheduleClass t r wn iid =>
    cases hres : g.schedule_workout_class t r wn iid with
    | none => simpa [applyOp, hres] using h
    | some p =>
      obtain ⟨b, g'⟩ := p
      simp only [applyOp, hres]
      rcases schedule_workout_class_some_elim hres with hg | hg
      · exact hg ▸ h
      · obtain ⟨instructor, workout, _, _, _, hg'⟩ := hg
        rw [hg']
        exact capOK_scheduledGym h
  | registerClient t c w =>
    cases hres : g.register t c w with
    | none => simpa [applyOp, hres] using h
    | some p =>
      obtain ⟨b, g'⟩ := p
      simp only [applyOp, hres]
      rcases register_some_elim hres with hg | hg
      · exact hg ▸ h
      · obtain ⟨rooms, chosen, off, hs, hoff, _, hsp, hpos, hg'⟩ := hg
        rw [hg']
        exact capOK_registeredGym h hs hoff hsp hpos

theorem capOK_init (name : String) : CapOK (Gym.init name) := by
  refine ⟨?_, ?_, ?_⟩
  · intro t rooms r off cap hl
    simp [Gym.init, dlookup] at hl
  · intro t rooms r off hl
    simp [Gym.init, dlookup] at hl
  · intro r cap hcp
    simp [Gym.init, dlookup] at hcp

theorem capOK_runOps {g : Gym} (h : CapOK g) {ops : List Op}
    (hops : ∀ op ∈ ops, opCapPos op = true) : CapOK (runOps g ops) := by
  induction ops generalizing g with
  | nil => exact h
  | cons op rest ih =>
    exact ih (capOK_applyOp h (hops op (List.mem_cons_self op rest)))
      fun o ho => hops o (List.mem_cons_of_mem op ho)

/-! ### Claim C6 -/

/-- C6: along every sequence of engine calls from a fresh gym in which
rooms are added with positive capacity (the data model's "capacity > 0"),
every offering's roster length stays at most the capacity recorded for its
room — in particular `register` never pushes a roster past its capacity. -/
theorem c6_capacity_bound (name : String) (ops : List Op)
    (hops : ∀ op ∈ ops, opCapPos op = true) :
    CapInv (runOps (Gym.init name) ops) :=
  (capOK_runOps (capOK_init name) hops).1

/-- The call sequence of the C6 witness: the register doctest flow (add
Diane, a 50-seat studio, Boot Camp; schedule at hour 12; register
Philip). -/
def opsW : List Op :=
  [Op.addInstructor ⟨1, "Diane", ["Cardio 1"]⟩,
   Op.addRoom "Dance Studio" 50,
   Op.addWorkoutClass ⟨"Boot Camp", ["Cardio 1"]⟩,
   Op.scheduleClass 12 "Dance Studio" "Boot Camp" 1,
   Op.registerClient 12 "Philip" "Boot Camp"]

/-- Witness for C6 at the doctest call sequence. -/
theorem c6_capacity_bound_witness :
    (∀ op ∈ opsW, opCapPos op = true) ∧
      CapInv (runOps (Gym.init "Athletic Centre") opsW) :=
  ⟨by decide, c6_capacity_bound "Athletic Centre" opsW (by decide)⟩

/-! ### Hour counting (claim C7) -/

/-- The instructor with id `iid` teaches some offering of the room map. -/
def teachesAt (rooms : List (String × Offering)) (iid : Int) : Bool :=
  rooms.any fun p => p.2.instructor.get_id == iid

/-- How many offerings of one room map instructor `iid` teaches. -/
def nOffSlot (rooms : List (String × Offering)) (iid : Int) : Nat :=
  (rooms.filter fun p => p.2.instructor.get_id == iid).length

/-- `time1 <= slot <= time2`, inclusive both ends. -/
def inRange (t1 t2 t : Nat) : Bool := decide (t1 ≤ t) && decide (t ≤ t2)

/-- Offerings taught by `iid` over the in-range slots of a schedule list. -/
def nOffsList (sl : List (Nat × List (String × Offering))) (t1 t2 : Nat)
    (iid : Int) : Nat :=
  ((sl.filter fun p => inRange t1 t2 p.1).map fun p => nOffSlot p.2 iid).sum

/-- In-range slots in which `iid` teaches (what the claim counts). -/
def nSlotsList (sl : List (Nat × List (String × Offering))) (t1 t2 : Nat)
    (iid : Int) : Nat :=
  (sl.filter fun p => inRange t1 t2 p.1 && teachesAt p.2 iid).length

/-- The claim's per-instructor hour count: one hour per in-range slot in
which the instructor teaches. -/
def nSlots (g : Gym) (t1 t2 : Nat) (iid : Int) : Nat :=
  nSlotsList g.schedule t1 t2 iid

/-- REFINEMENT SPEC (from the claim's words, not the source): the hours
report as claim C7 states it — every registry id, slot-counted hours. -/
def hoursSpec (g : Gym) (t1 t2 : Nat) : List (Int × Nat) :=
  g.instructors.map fun p => (p.1, nSlots g t1 t2 p.1)

/-- REFINEMENT SPEC (from the claim's words, not the source): the payroll
report as claim C7 states it — ascending ids, and per instructor
(id, name, hours, hours * (base_rate + 1.50 * certificate count)). -/
def payrollSpec (g : Gym) (t1 t2 : Nat) (base_rate : ℚ) :
    List (Int × String × Nat × ℚ) :=
  (pysortBy pyIntLe (g.instructors.map Prod.fst)).map fun iid =>
    match dlookup g.instructors iid with
    | some ins =>
      (iid, ins.name, nSlots g t1 t2 iid,
        (nSlots g t1 t2 iid : ℚ) *
          (base_rate + BONUS_RATE * ins.get_certificates.length))
    | none => (iid, "", 0, 0)

/-- The registry keys each entry by its instructor's id (structurally true
of every Python `Gym`, where `add_instructor` uses `get_id()` as the key). -/
def RegistryKeysConsistent (g : Gym) : Prop :=
  ∀ p ∈ g.instructors, p.2.get_id = p.1

/-- Representation invariant (b) in the per-entry form the scans need: in
each slot an instructor teaches at most one offering. -/
def SlotTeachOnce (g : Gym) : Prop :=
  ∀ p ∈ g.schedule, ∀ iid, nOffSlot p.2 iid ≤ 1

theorem dlookup_dbump (hd : List (Int × Nat)) (x k : Int) :
    dlookup (dbump hd x) k =
      if k = x then (dlookup hd k).map (· + 1) else dlookup hd k := by
  unfold dbump
  cases hv : dlookup hd x with
  | some v =>
    rw [dlookup_dinsert]
    by_cases hk : k = x
    · subst hk; rw [hv]; simp
    · simp [hk]
  | none =>
    by_cases hk : k = x
    · subst hk; rw [hv]; simp
    · simp [hk]

theorem keys_dbump (hd : List (Int × Nat)) (x : Int) :
    (dbump hd x).map Prod.fst = hd.map Prod.fst := by
  unfold dbump
  cases hv : dlookup hd x with
  | some v => exact keys_dinsert_some _ (by simp [hv])
  | none => rfl

theorem ihFold_nomatch (x : Int) (il : List (Int × Instructor))
    (hd : List (Int × Nat)) (hno : ∀ p ∈ il, x ≠ p.2.get_id) :
    il.foldl
      (fun hd ip => if x = ip.2.get_id then dbump hd ip.2.get_id else hd) hd
      = hd := by
  induction il generalizing hd with
  | nil => rfl
  | cons p rest ih =>
    simp only [List.foldl_cons]
    rw [if_neg (hno p (List.mem_cons_self p rest))]
    exact ih hd fun q hq => hno q (List.mem_cons_of_mem p hq)

theorem ihFold_char (x : Int) (il : List (Int × Instructor))
    (hd : List (Int × Nat)) (hkeys : ∀ p ∈ il, p.2.get_id = p.1)
    (hnd : (il.map Prod.fst).Nodup) :
    il.foldl
      (fun hd ip => if x = ip.2.get_id then dbump hd ip.2.get_id else hd) hd
      = if x ∈ il.map Prod.fst then dbump hd x else hd := by
  induction il generalizing hd with
  | nil => simp
  | cons p rest ih =>
    have hpk : p.2.get_id = p.1 := hkeys p (List.mem_cons_self p rest)
    simp only [List.map_cons, List.nodup_cons] at hnd
    by_cases hx : x = p.1
    · simp only [List.foldl_cons]
      rw [if_pos (by rw [hpk, hx]), hpk, ← hx]
      rw [ihFold_nomatch x rest (dbump hd x) ?hno]
      · rw [if_pos (by simp [hx])]
      case hno =>
        intro q hq
        rw [hkeys q (List.mem_cons_of_mem p hq)]
        intro he
        exact hnd.1 (by rw [← hx, he]; exact List.mem_map_of_mem Prod.fst hq)
    · simp only [List.foldl_cons]
      rw [if_neg (by rw [hpk]; exact hx)]
      rw [ih hd (fun q hq => hkeys q (List.mem_cons_of_mem p hq)) hnd.2]
      have : (x ∈ p.1 :: rest.map Prod.fst) = (x ∈ rest.map Prod.fst) := by
        simp [hx]
      simp only [List.map_cons, this]

theorem ihInstrStep_char (g : Gym) (off : Offering) (hd : List (Int × Nat))
    (hkeys : RegistryKeysConsistent g)
    (hnd : (g.instructors.map Prod.fst).Nodup) :
    ihInstrStep g off hd =
      if off.instructor.get_id ∈ g.instructors.map Prod.fst then
        dbump hd off.instructor.get_id
      else hd :=
  ihFold_char off.instructor.get_id g.instructors hd hkeys hnd

theorem nOffSlot_cons (ro : String × Offering)
    (rest : List (String × Offering)) (k : Int) :
    nOffSlot (ro :: rest) k =
      (if ro.2.instructor.get_id = k then 1 else 0) + nOffSlot rest k := by
  by_cases h : ro.2.instructor.get_id = k
  · simp [nOffSlot, List.filter_cons, h, Nat.add_comm]
  · simp [nOffSlot, List.filter_cons, h]

theorem keys_ihInstrStep (g : Gym) (off : Offering)
    (hd : List (Int × Nat)) :
    (ihInstrStep g off hd).map Prod.fst = hd.map Prod.fst := by
  unfold ihInstrStep
  induction g.instructors generalizing hd with
  | nil => rfl
  | cons p rest ih =>
    simp only [List.foldl_cons]
    by_cases h : off.instructor.get_id = p.2.get_id
    · rw [if_pos h, ih, keys_dbump]
    · rw [if_neg h, ih]

theorem keys_ihRoomsStep (g : Gym) (rooms : List (String × Offering))
    (hd : List (Int × Nat)) :
    (ihRoomsStep g rooms hd).map Prod.fst = hd.map Prod.fst := by
  unfold ihRoomsStep
  induction rooms generalizing hd with
  | nil => rfl
  | cons ro rest ih =>
    simp only [List.foldl_cons]
    rw [ih, keys_ihInstrStep]

theorem dlookup_ihRoomsStep (g : Gym) (rooms : List (String × Offering))
    (hd : List (Int × Nat)) (k : Int) (hkeys : RegistryKeysConsistent g)
    (hnd : (g.instructors.map Prod.fst).Nodup)
    (hk : k ∈ g.instructors.map Prod.fst) :
    dlookup (ihRoomsStep g rooms hd) k =
      (dlookup hd k).map (· + nOffSlot rooms k) := by
  induction rooms generalizing hd with
  | nil =>
    show dlookup hd k = _
    cases dlookup hd k <;> simp [nOffSlot]
  | cons ro rest ih =>
    show dlookup (ihRoomsStep g rest (ihInstrStep g ro.2 hd)) k = _
    rw [ih (ihInstrStep g ro.2 hd)]
    rw [ihInstrStep_char g ro.2 hd hkeys hnd]
    rw [nOffSlot_cons]
    by_cases hin : ro.2.instructor.get_id ∈ g.instructors.map Prod.fst
    · rw [if_pos hin, dlookup_dbump]
      by_cases hkx : k = ro.2.instructor.get_id
      · rw [if_pos hkx, if_pos hkx.symm]
        cases dlookup hd k <;> simp <;> omega
      · rw [if_neg hkx, if_neg fun he => hkx he.symm]
        simp
    · rw [if_neg hin]
      have hne : ro.2.instructor.get_id ≠ k := fun he => hin (he ▸ hk)
      rw [if_neg hne]
      simp

theorem nOffsList_cons (dr : Nat × List (String × Offering))
    (rest : List (Nat × List (String × Offering))) (t1 t2 : Nat) (k : Int) :
    nOffsList (dr :: rest) t1 t2 k =
      (if inRange t1 t2 dr.1 then nOffSlot dr.2 k else 0)
        + nOffsList rest t1 t2 k := by
  by_cases h : inRange t1 t2 dr.1 = true
  · simp [nOffsList, List.filter_cons, h]
  · simp [nOffsList, List.filter_cons, h]

theorem keys_hours_scan (g : Gym) (t1 t2 : Nat)
    (sl : List (Nat × List (String × Offering))) (hd : List (Int × Nat)) :
    (sl.foldl
      (fun hd dr =>
        if t1 ≤ dr.1 ∧ dr.1 ≤ t2 then ihRoomsStep g dr.2 hd else hd)
      hd).map Prod.fst = hd.map Prod.fst := by
  induction sl generalizing hd with
  | nil => rfl
  | cons dr rest ih =>
    simp only [List.foldl_cons]
    by_cases h : t1 ≤ dr.1 ∧ dr.1 ≤ t2
    · rw [if_pos h, ih, keys_ihRoomsStep]
    · rw [if_neg h, ih]

theorem dlookup_hours_scan (g : Gym) (t1 t2 : Nat)
    (sl : List (Nat × List (String × Offering))) (hd : List (Int × Nat))
    (k : Int) (hkeys : RegistryKeysConsistent g)
    (hnd : (g.instructors.map Prod.fst).Nodup)
    (hk : k ∈ g.instructors.map Prod.fst) :
    dlookup
      (sl.foldl
        (fun hd dr =>
          if t1 ≤ dr.1 ∧ dr.1 ≤ t2 then ihRoomsStep g dr.2 hd else hd)
        hd) k =
      (dlookup hd k).map (· + nOffsList sl t1 t2 k) := by
  induction sl generalizing hd with
  | nil =>
    show dlookup hd k = _
    cases dlookup hd k <;> simp [nOffsList]
  | cons dr rest ih =>
    simp only [List.foldl_cons]
    rw [nOffsList_cons]
    by_cases h : t1 ≤ dr.1 ∧ dr.1 ≤ t2
    · rw [if_pos h, ih, dlookup_ihRoomsStep g dr.2 hd k hkeys hnd hk]
      rw [if_pos (by simp [inRange, h.1, h.2])]
      cases dlookup hd k <;> simp <;> omega
    · rw [if_neg h, ih]
      have hif : inRange t1 t2 dr.1 = false := by
        simp only [inRange, Bool.and_eq_false_iff, decide_eq_false_iff_not]
        omega
      rw [if_neg (by simp [hif])]
      simp

theorem dict_ext {β : Type} {d1 d2 : List (Int × β)}
    (hkeys : d1.map Prod.fst = d2.map Prod.fst)
    (hnd : (d1.map Prod.fst).Nodup)
    (hlook : ∀ k, dlookup d1 k = dlookup d2 k) : d1 = d2 := by
  induction d1 generalizing d2 with
  | nil =>
    cases d2 with
    | nil => rfl
    | cons q rest2 => simp at hkeys
  | cons p rest ih =>
    cases d2 with
    | nil => simp at hkeys
    | cons q rest2 =>
      simp only [List.map_cons, List.cons.injEq] at hkeys
      simp only [List.map_cons, List.nodup_cons] at hnd
      have hv : p.2 = q.2 := by
        have := hlook p.1
        simp only [dlookup, if_pos rfl] at this
        rw [if_pos hkeys.1.symm] at this
        exact Option.some.injEq _ _ ▸ this
      have hrest : rest = rest2 := by
        apply ih hkeys.2 hnd.2
        intro k
        by_cases hk : k = p.1
        · have h1 : dlookup rest k = none :=
            dlookup_eq_none_iff.mpr (by rw [hk]; exact hnd.1)
          have h2 : dlookup rest2 k = none := by
            apply dlookup_eq_none_iff.mpr
            rw [hk, ← hkeys.2]
            exact hnd.1
          rw [h1, h2]
        · have := hlook k
          simp only [dlookup] at this
          rw [if_neg fun he => hk he.symm] at this
          rw [if_neg (by rw [← hkeys.1]; exact fun he => hk he.symm)] at this
          exact this
      calc p :: rest = (p.1, p.2) :: rest := by rfl
        _ = (q.1, q.2) :: rest2 := by rw [hkeys.1, hv, hrest]
        _ = q :: rest2 := by rfl

theorem dlookup_mapval {β γ : Type} (l : List (Int × β)) (f : Int → γ)
    (k : Int) :
    dlookup (l.map fun p => (p.1, f p.1)) k =
      (dlookup l k).map fun _ => f k := by
  induction l with
  | nil => simp [dlookup]
  | cons p rest ih =>
    by_cases h : p.1 = k
    · simp [dlookup, h]
    · simp only [List.map_cons, dlookup, if_neg h, ih]

/-- The hour scan computes, per registry id, the number of in-range
offerings taught. -/
theorem instructor_hours_char (g : Gym) (t1 t2 : Nat)
    (hkeys : RegistryKeysConsistent g)
    (hnd : (g.instructors.map Prod.fst).Nodup) :
    g.instructor_hours t1 t2 =
      g.instructors.map fun p => (p.1, nOffsList g.schedule t1 t2 p.1) := by
  apply dict_ext
  · unfold Gym.instructor_hours
    rw [keys_hours_scan]
    simp [List.map_map, Function.comp_def]
  · unfold Gym.instructor_hours
    rw [keys_hours_scan]
    simpa [List.map_map, Function.comp_def] using hnd
  · intro k
    unfold Gym.instructor_hours
    rw [dlookup_mapval]
    by_cases hk : k ∈ g.instructors.map Prod.fst
    · rw [dlookup_hours_scan g t1 t2 g.schedule _ k hkeys hnd hk]
      rw [dlookup_mapval g.instructors (fun _ => (0 : Nat)) k]
      have h := dlookup_isSome_iff.mpr hk
      cases hv : dlookup g.instructors k with
      | none => rw [hv] at h; simp at h
      | some ins => simp
    · have h1 : dlookup g.instructors k = none := dlookup_eq_none_iff.mpr hk
      have h2 : dlookup
          (g.schedule.foldl
            (fun hd dr =>
              if t1 ≤ dr.1 ∧ dr.1 ≤ t2 then ihRoomsStep g dr.2 hd else hd)
            (g.instructors.map fun p => (p.1, 0))) k = none := by
        apply dlookup_eq_none_iff.mpr
        rw [keys_hours_scan]
        simpa [List.map_map, Function.comp_def] using hk
      rw [h1, h2]
      simp

/-- With at most one offering per instructor per slot, offering counting is
slot counting. -/
theorem nOffs_eq_nSlots (sl : List (Nat × List (String × Offering)))
    (t1 t2 : Nat) (k : Int) (h : ∀ p ∈ sl, nOffSlot p.2 k ≤ 1) :
    nOffsList sl t1 t2 k = nSlotsList sl t1 t2 k := by
  induction sl with
  | nil => rfl
  | cons dr rest ih =>
    have hslot : nOffSlot dr.2 k = if teachesAt dr.2 k then 1 else 0 := by
      have hle := h dr (List.mem_cons_self dr rest)
      by_cases ht : teachesAt dr.2 k = true
      · rw [if_pos ht]
        unfold teachesAt at ht
        rw [List.any_eq_true] at ht
        obtain ⟨p, hp, hpk⟩ := ht
        have hmem : p ∈ dr.2.filter fun p => p.2.instructor.get_id == k :=
          List.mem_filter.mpr ⟨hp, hpk⟩
        have : 0 < nOffSlot dr.2 k := by
          unfold nOffSlot
          exact List.length_pos.mpr fun he => by simp [he] at hmem
        omega
      · rw [if_neg ht]
        unfold teachesAt at ht
        unfold nOffSlot
        rw [List.any_eq_true] at ht
        have : dr.2.filter (fun p => p.2.instructor.get_id == k) = [] := by
          apply List.filter_eq_nil_iff.mpr
          intro p hp hb
          exact ht ⟨p, hp, hb⟩
        rw [this]
        rfl
    have hrest := ih fun p hp => h p (List.mem_cons_of_mem dr hp)
    rw [nOffsList_cons]
    unfold nSlotsList
    rw [List.filter_cons]
    by_cases hr : inRange t1 t2 dr.1 = true
    · rw [if_pos hr]
      by_cases ht : teachesAt dr.2 k = true
      · rw [hslot, if_pos ht]
        simp only [hr, ht, Bool.and_self, if_pos]
        unfold nSlotsList at hrest
        simp only [List.length_cons]
        omega
      · rw [hslot, if_neg ht]
        have : (inRange t1 t2 dr.1 && teachesAt dr.2 k) = false := by
          simp [ht]
        simp only [this, Bool.false_eq_true, if_false]
        unfold nSlotsList at hrest
        omega
    · rw [if_neg hr]
      have : (inRange t1 t2 dr.1 && teachesAt dr.2 k) = false := by
        simp [Bool.eq_false_iff.mpr hr]
      simp only [this, Bool.false_eq_true, if_false]
      unfold nSlotsList at hrest
      omega

theorem prStep_map (l : List (Int × Instructor)) (f : Instructor → Nat)
    (off : Offering) :
    prStep off (l.map fun q => (q.2, f q.2)) =
      l.map fun q =>
        (q.2, f q.2 + if off.instructor.get_id = q.2.get_id then 1 else 0) := by
  unfold prStep
  rw [List.map_map]
  apply List.map_congr_left
  intro q _
  simp only [Function.comp_apply]
  by_cases h : off.instructor.get_id = q.2.get_id <;> simp [h]

theorem prRooms_map (rooms : List (String × Offering))
    (l : List (Int × Instructor)) (f : Instructor → Nat) :
    prRoomsStep rooms (l.map fun q => (q.2, f q.2)) =
      l.map fun q => (q.2, f q.2 + nOffSlot rooms q.2.get_id) := by
  induction rooms generalizing f with
  | nil =>
    show l.map _ = _
    apply List.map_congr_left
    intro q _
    simp [nOffSlot]
  | cons ro rest ih =>
    show prRoomsStep rest (prStep ro.2 (l.map fun q => (q.2, f q.2))) = _
    rw [prStep_map]
    rw [ih fun i => f i + if ro.2.instructor.get_id = i.get_id then 1 else 0]
    apply List.map_congr_left
    intro q _
    rw [nOffSlot_cons]
    by_cases h : ro.2.instructor.get_id = q.2.get_id <;> simp [h] <;> omega

theorem payroll_scan_map (t1 t2 : Nat)
    (sl : List (Nat × List (String × Offering)))
    (l : List (Int × Instructor)) (f : Instructor → Nat) :
    sl.foldl
      (fun d tr => if t1 ≤ tr.1 ∧ tr.1 ≤ t2 then prRoomsStep tr.2 d else d)
      (l.map fun q => (q.2, f q.2)) =
      l.map fun q => (q.2, f q.2 + nOffsList sl t1 t2 q.2.get_id) := by
  induction sl generalizing f with
  | nil =>
    show l.map _ = _
    apply List.map_congr_left
    intro q _
    simp [nOffsList]
  | cons dr rest ih =>
    simp only [List.foldl_cons]
    by_cases h : t1 ≤ dr.1 ∧ dr.1 ≤ t2
    · rw [if_pos h, prRooms_map,
        ih fun i => f i + nOffSlot dr.2 i.get_id]
      apply List.map_congr_left
      intro q _
      rw [nOffsList_cons]
      rw [if_pos (by simp [inRange, h.1, h.2])]
      simp only [Prod.mk.injEq, true_and]
      omega
    · rw [if_neg h, ih f]
      apply List.map_congr_left
      intro q _
      rw [nOffsList_cons]
      have hif : inRange t1 t2 dr.1 = false := by
        simp only [inRange, Bool.and_eq_false_iff, decide_eq_false_iff_not]
        omega
      rw [if_neg (by simp [hif])]
      simp

theorem find_map_registry (l : List (Int × Instructor))
    (G : Instructor → Int × String × Nat × ℚ)
    (hfst : ∀ q ∈ l, (G q.2).1 = q.1)
    (iid : Int) :
    ((l.map fun q => G q.2).find? fun item => item.1 = iid) =
      (dlookup l iid).map G := by
  induction l with
  | nil => simp [dlookup]
  | cons q rest ih =>
    by_cases h : q.1 = iid
    · have hpred : ((G q.2).1 = iid) := by
        rw [hfst q (List.mem_cons_self q rest)]; exact h
      simp only [List.map_cons]
      rw [List.find?_cons_of_pos _ (by simp [hpred])]
      simp [dlookup, h]
    · have hpred : ¬((G q.2).1 = iid) := by
        rw [hfst q (List.mem_cons_self q rest)]; exact h
      simp only [List.map_cons]
      rw [List.find?_cons_of_neg _ (by simp [hpred])]
      rw [ih fun p hp => hfst p (List.mem_cons_of_mem q hp)]
      simp [dlookup, h]

theorem pairwise_pyInsert {α : Type} (le : α → α → Bool)
    (htot : ∀ a b, le a b = true ∨ le b a = true)
    (htr : ∀ a b c, le a b = true → le b c = true → le a c = true)
    (x : α) (l : List α) (hs : l.Pairwise fun a b => le a b = true) :
    (pyInsert le x l).Pairwise fun a b => le a b = true := by
  induction l with
  | nil => simp [pyInsert]
  | cons a l ih =>
    rw [List.pairwise_cons] at hs
    unfold pyInsert
    by_cases h : le x a = true
    · rw [if_pos h]
      refine List.pairwise_cons.mpr ⟨?_, List.pairwise_cons.mpr hs⟩
      intro b hb
      rcases List.mem_cons.mp hb with rfl | hb'
      · exact h
      · exact htr x a b h (hs.1 b hb')
    · rw [if_neg h]
      have hax : le a x = true := (htot x a).resolve_left h
      refine List.pairwise_cons.mpr ⟨?_, ih hs.2⟩
      intro b hb
      rcases (mem_pyInsert le x b l).mp hb with rfl | hb'
      · exact hax
      · exact hs.1 b hb'

theorem pairwise_pysortBy {α : Type} (le : α → α → Bool)
    (htot : ∀ a b, le a b = true ∨ le b a = true)
    (htr : ∀ a b c, le a b = true → le b c = true → le a c = true)
    (l : List α) :
    (pysortBy le l).Pairwise fun a b => le a b = true := by
  induction l with
  | nil => simp [pysortBy]
  | cons a l ih => exact pairwise_pyInsert le htot htr a (pysortBy le l) ih

theorem pyIntLe_total (a b : Int) : pyIntLe a b = true ∨ pyIntLe b a = true := by
  simp only [pyIntLe, decide_eq_true_eq]
  omega

theorem pyIntLe_trans (a b c : Int) (h1 : pyIntLe a b = true)
    (h2 : pyIntLe b c = true) : pyIntLe a c = true := by
  simp only [pyIntLe, decide_eq_true_eq] at *
  omega

/-- The payroll pipeline computes, per sorted registry id, the tuple with
offering-counted hours. -/
theorem payroll_char (g : Gym) (t1 t2 : Nat) (base_rate : ℚ)
    (hkeys : RegistryKeysConsistent g) :
    g.payroll t1 t2 base_rate =
      (pysortBy pyIntLe (g.instructors.map Prod.fst)).map fun iid =>
        match dlookup g.instructors iid with
        | some ins =>
          (iid, ins.name, nOffsList g.schedule t1 t2 iid,
            (nOffsList g.schedule t1 t2 iid : ℚ) *
              (base_rate + BONUS_RATE * ins.get_certificates.length))
        | none => (iid, "", 0, 0) := by
  unfold Gym.payroll
  simp only []
  rw [payroll_scan_map t1 t2 g.schedule g.instructors fun _ => 0]
  rw [List.map_map]
  have hG : ∀ q ∈ g.instructors,
      ((fun ic : Instructor × Nat =>
          ((ic.1.get_id, ic.1.name, ic.2,
            (ic.2 : ℚ) * (base_rate + BONUS_RATE * ic.1.get_certificates.length))
            : Int × String × Nat × ℚ)) ∘
        fun q : Int × Instructor =>
          (q.2, 0 + nOffsList g.schedule t1 t2 q.2.get_id)) q
        = ((fun i : Instructor =>
            ((i.get_id, i.name, nOffsList g.schedule t1 t2 i.get_id,
              (nOffsList g.schedule t1 t2 i.get_id : ℚ) *
                (base_rate + BONUS_RATE * i.get_certificates.length))
              : Int × String × Nat × ℚ)) ∘
          fun q : Int × Instructor => q.2) q := by
    intro q _
    simp
  rw [List.map_congr_left hG]
  simp only [Function.comp_def]
  set G := fun i : Instructor =>
    ((i.get_id, i.name, nOffsList g.schedule t1 t2 i.get_id,
      (nOffsList g.schedule t1 t2 i.get_id : ℚ) *
        (base_rate + BONUS_RATE * i.get_certificates.length))
      : Int × String × Nat × ℚ) with hGdef
  have hfst : ∀ q ∈ g.instructors, (G q.2).1 = q.1 := by
    intro q hq
    rw [hGdef]
    exact hkeys q hq
  have hids : (g.instructors.map fun q => G q.2).map Prod.fst
      = g.instructors.map Prod.fst := by
    rw [List.map_map]
    apply List.map_congr_left
    intro q hq
    exact hfst q hq
  rw [hids]
  apply List.map_congr_left
  intro iid hiid
  rw [find_map_registry g.instructors G hfst iid]
  have hmem : iid ∈ g.instructors.map Prod.fst :=
    (mem_pysortBy pyIntLe _ iid).mp hiid
  cases hv : dlookup g.instructors iid with
  | none => exact absurd (dlookup_eq_none_iff.mp hv) (by simp [hmem])
  | some ins =>
    have : ins.get_id = iid := by
      have := hkeys (iid, ins) (mem_of_dlookup hv)
      simpa using this
    simp [hGdef, this]

/-! ### Claim C7 -/

/-- C7: over arbitrary gym states whose registry keys are consistent and
duplicate-free and whose slots host each instructor at most once
(representation invariants of the class), and any `time1 <= time2`:
`instructor_hours` maps every registry id (zero-defaulted) to one hour per
in-range slot taught, and `payroll` lists, ascending by id, one tuple
(id, name, hours, hours * (base_rate + 1.50 * certificate count)) per
registered instructor, zero-hour instructors included. -/
theorem c7_hours_and_payroll (g : Gym) (t1 t2 : Nat) (base_rate : ℚ)
    (h12 : t1 ≤ t2)
    (hkeys : RegistryKeysConsistent g)
    (hnd : (g.instructors.map Prod.fst).Nodup)
    (hslot : SlotTeachOnce g) :
    g.instructor_hours t1 t2 = hoursSpec g t1 t2 ∧
    g.payroll t1 t2 base_rate = payrollSpec g t1 t2 base_rate ∧
    (g.payroll t1 t2 base_rate).Pairwise fun a b => a.1 ≤ b.1 := by
  have hbridge : ∀ k, nOffsList g.schedule t1 t2 k = nSlots g t1 t2 k := by
    intro k
    exact nOffs_eq_nSlots g.schedule t1 t2 k fun p hp => hslot p hp k
  have hhours : g.instructor_hours t1 t2 = hoursSpec g t1 t2 := by
    rw [instructor_hours_char g t1 t2 hkeys hnd]
    unfold hoursSpec
    apply List.map_congr_left
    intro p _
    rw [hbridge]
  have hpay : g.payroll t1 t2 base_rate = payrollSpec g t1 t2 base_rate := by
    rw [payroll_char g t1 t2 base_rate hkeys]
    unfold payrollSpec
    apply List.map_congr_left
    intro iid _
    cases hv : dlookup g.instructors iid with
    | none => simp
    | some ins => simp [hbridge]
  refine ⟨hhours, hpay, ?_⟩
  rw [hpay]
  unfold payrollSpec
  rw [List.pairwise_map]
  have hsorted := pairwise_pysortBy pyIntLe pyIntLe_total pyIntLe_trans
    (g.instructors.map Prod.fst)
  refine hsorted.imp ?_
  intro a b hab
  have hab' : a ≤ b := by simpa [pyIntLe] using hab
  cases dlookup g.instructors a <;> cases dlookup g.instructors b <;>
    simpa using hab'

/-- The C7 witness gym: Diane (id 1, one certificate) teaching Boot Camp
at hour 12 in the 50-seat studio. -/
def gymW7 : Gym :=
  { name := "Athletic Centre",
    instructors := [(1, ⟨1, "Diane", ["Cardio 1"]⟩)],
    workouts := [("Boot Camp", ⟨"Boot Camp", ["Cardio 1"]⟩)],
    room_capacities := [("Dance Studio", 50)],
    schedule := [(12, [("Dance Studio",
      ⟨⟨1, "Diane", ["Cardio 1"]⟩, ⟨"Boot Camp", ["Cardio 1"]⟩, []⟩)])] }

/-- Witness for C7: one qualification, exactly one matching hour, base rate
25.0 — wages 26.5 (= 53/2). -/
theorem c7_hours_and_payroll_witness :
    ((12 : Nat) ≤ 36 ∧ RegistryKeysConsistent gymW7 ∧
      (gymW7.instructors.map Prod.fst).Nodup ∧ SlotTeachOnce gymW7) ∧
    gymW7.instructor_hours 12 36 = hoursSpec gymW7 12 36 ∧
    gymW7.payroll 12 36 25 = payrollSpec gymW7 12 36 25 ∧
    hoursSpec gymW7 12 36 = [(1, 1)] ∧
    payrollSpec gymW7 12 36 25 = [(1, "Diane", 1, 53 / 2)] := by
  have hslot : SlotTeachOnce gymW7 := by
    intro p hp iid
    have hp' : p = (12, [("Dance Studio",
        (⟨⟨1, "Diane", ["Cardio 1"]⟩, ⟨"Boot Camp", ["Cardio 1"]⟩, []⟩
          : Offering))]) := by
      simpa [gymW7] using hp
    subst hp'
    have hle := List.length_filter_le
      (fun q : String × Offering => q.2.instructor.get_id == iid)
      [("Dance Studio",
        (⟨⟨1, "Diane", ["Cardio 1"]⟩, ⟨"Boot Camp", ["Cardio 1"]⟩, []⟩
          : Offering))]
    simpa [nOffSlot] using hle
  have hmain := c7_hours_and_payroll gymW7 12 36 25 (by decide)
    (by unfold RegistryKeysConsistent; decide) (by decide) hslot
  refine ⟨⟨by decide, by unfold RegistryKeysConsistent; decide, by decide,
    hslot⟩, hmain.1, hmain.2.1, by decide, ?_⟩
  norm_num [payrollSpec, pysortBy, pyInsert, pyIntLe, dlookup, nSlots,
    nSlotsList, teachesAt, inRange, BONUS_RATE, Instructor.get_certificates,
    Instructor.get_id, gymW7, List.filter]

/-! ### Claim C8 -/

/-- C8: each `add` operation called a second time with the same key returns
`False` and leaves the state exactly as after the first call (never
overwriting the stored entity). -/
theorem c8_add_operations_idempotent_failure (g : Gym)
    (i1 i2 : Instructor) (w1 w2 : WorkoutClass) (room : String)
    (cap1 cap2 : Int) (ins : Instructor) (cert : String)
    (hid : i2.get_id = i1.get_id) (hwn : w2.name = w1.name) :
    (g.add_instructor i1).2.add_instructor i2
        = (false, (g.add_instructor i1).2) ∧
    (g.add_workout_class w1).2.add_workout_class w2
        = (false, (g.add_workout_class w1).2) ∧
    (g.add_room room cap1).2.add_room room cap2
        = (false, (g.add_room room cap1).2) ∧
    (ins.add_certificate cert).2.add_certificate cert
        = (false, (ins.add_certificate cert).2) := by
  refine ⟨?_, ?_, ?_, ?_⟩
  · by_cases h : (dlookup g.instructors i1.get_id).isSome
    · simp [Gym.add_instructor, h, hid]
    · simp [Gym.add_instructor, h, hid, dlookup_dinsert_self]
  · by_cases h : (dlookup g.workouts w1.name).isSome
    · simp [Gym.add_workout_class, h, hwn]
    · simp [Gym.add_workout_class, h, hwn, dlookup_dinsert_self]
  · by_cases h : (dlookup g.room_capacities room).isSome
    · simp [Gym.add_room, h]
    · simp [Gym.add_room, h, dlookup_dinsert_self]
  · by_cases h : cert ∈ ins.certificates
    · simp [Instructor.add_certificate, h]
    · simp [Instructor.add_certificate, h]

/-- Witness for C8 at concrete inputs: id 1 twice, workout name "Yoga"
twice, room "R" twice, certificate "Q" twice. -/
theorem c8_add_operations_idempotent_failure_witness :
    (Instructor.get_id ⟨1, "B", []⟩ = Instructor.get_id ⟨1, "A", []⟩) ∧
    (WorkoutClass.name ⟨"Yoga", ["X"]⟩ = WorkoutClass.name ⟨"Yoga", []⟩) ∧
    (((Gym.init "G").add_instructor ⟨1, "A", []⟩).2.add_instructor ⟨1, "B", []⟩
        = (false, ((Gym.init "G").add_instructor ⟨1, "A", []⟩).2) ∧
     ((Gym.init "G").add_workout_class ⟨"Yoga", []⟩).2.add_workout_class
          ⟨"Yoga", ["X"]⟩
        = (false, ((Gym.init "G").add_workout_class ⟨"Yoga", []⟩).2) ∧
     ((Gym.init "G").add_room "R" 10).2.add_room "R" 20
        = (false, ((Gym.init "G").add_room "R" 10).2) ∧
     (Instructor.add_certificate ⟨2, "C", []⟩ "Q").2.add_certificate "Q"
        = (false, (Instructor.add_certificate ⟨2, "C", []⟩ "Q").2)) :=
  ⟨rfl, rfl,
    c8_add_operations_idempotent_failure (Gym.init "G") ⟨1, "A", []⟩
      ⟨1, "B", []⟩ ⟨"Yoga", []⟩ ⟨"Yoga", ["X"]⟩ "R" 10 20 ⟨2, "C", []⟩ "Q"
      rfl rfl⟩

/-! ### Claim C10 -/

/-- C10: on a time point absent from the schedule, `offerings_at` does not
return an empty list — its first step `self._schedule[time_point]` is an
unguarded lookup, so the call raises (`none`). -/
theorem c10_offerings_at_raises_on_absent_slot (g : Gym) (t : Nat)
    (h : dlookup g.schedule t = none) : g.offerings_at t = none := by
  simp [Gym.offerings_at, h]

/-- Witness for C10: a fresh gym has no slot at hour 0. -/
theorem c10_offerings_at_raises_on_absent_slot_witness :
    dlookup (Gym.init "Athletic Centre").schedule 0 = none ∧
      (Gym.init "Athletic Centre").offerings_at 0 = none :=
  ⟨rfl, c10_offerings_at_raises_on_absent_slot (Gym.init "Athletic Centre") 0
    rfl⟩

end GymModel
